import Mathlib

/-!
Verification development for the ecoevo-studio frontend's material-mapper
client: the stream-event aggregator, the SSE frame parser, the bipartite
view builder and the hover highlight logic, embedded shallowly from
`src/app/dashboard/tools/material-mapper/page.tsx` and
`src/components/ui/BipartiteGraph.tsx`.

Conventions of the embedding:
* Strings are Lean `String`s (the TypeScript code manipulates already
  decoded text); raw stream chunks are `List Char` so that line splitting
  can be reasoned about character by character.
* A TypeScript value that may be `undefined` is an `Option`; the
  `x as T || default` coercions of the source become `Option.getD`.
* JavaScript string truthiness (both `null`/`undefined` and `""` are
  falsy) is modelled explicitly where the source relies on it.
* `JSON.parse` is a browser builtin; it is abstracted as a parameter
  `parse : List Char → Option StreamEvent` (`none` models a thrown
  `SyntaxError`).
* Numeric payload fields (`elapsed_ms`, `processing_time_ms`, `cost_usd`,
  chunk counters) are carried opaquely by the aggregator, which performs
  no arithmetic on them; they are modelled as `Nat`.
-/

/-- The `flow_type` field of a matched BMF (`page.tsx`, interface `MatchedBMF`). -/
inductive FlowType
  | inflow
  | outflow
  | both
deriving DecidableEq

/-- The `confidence` field of a matched BMF. -/
inductive Confidence
  | high
  | medium
  | low
deriving DecidableEq

/-- interface `MatchedBMF` (page.tsx lines 7-13); `flow_type` is optional. -/
structure MatchedBMF where
  bmf_name : String
  flow_type : Option FlowType
  confidence : Confidence
  matched_materials : List String
  reason : String
deriving DecidableEq

/-- interface `EcosystemConnection` (page.tsx lines 15-19). -/
structure EcosystemConnection where
  bmf_name : String
  ecosystem_service : String
  relationship_type : String
deriving DecidableEq

/-- interface `SupplementaryConnection` (page.tsx lines 21-26). -/
structure SupplementaryConnection where
  bmf_name : String
  ecosystem_service : String
  text : String
  direction : Option String
deriving DecidableEq

/-- interface `EcosystemServiceDetail` (page.tsx lines 28-33). -/
structure EcosystemServiceDetail where
  name : String
  description : String
  category : String
  supplementary_connections : List SupplementaryConnection
deriving DecidableEq

/-- interface `MapperResult` (page.tsx lines 35-44); the
`Record<string, EcosystemServiceDetail>` is an association list. -/
structure MapperResult where
  extracted_materials : List String
  matched_bmfs : List MatchedBMF
  unmatched_materials : List String
  ecosystem_connections : List EcosystemConnection
  ecosystem_services : List String
  ecosystem_service_details : List (String × EcosystemServiceDetail)
  processing_time_ms : Nat
  cost_usd : Nat
deriving DecidableEq

/-- The `ProgressState.stage` field (page.tsx line 47). -/
inductive Stage
  | idle
  | stage1
  | stage2
  | stage3
  | complete
  | error
deriving DecidableEq

/-- interface `ProgressState` (page.tsx lines 46-52). -/
structure ProgressState where
  stage : Stage
  message : String
  currentChunk : Option Nat
  totalChunks : Option Nat
  elapsedMs : Option Nat
deriving DecidableEq

/-- The React state of `MaterialMapperPage` (the `useState` hooks,
page.tsx lines 55-67). -/
structure MapperState where
  strategy : String
  isLoading : Bool
  result : Option MapperResult
  error : Option String
  progress : ProgressState
  extractedMaterials : List String
  matchedBmfs : List MatchedBMF
  ecosystemConnections : List EcosystemConnection
  ecosystemServices : List String
  ecosystemServiceDetails : List (String × EcosystemServiceDetail)
  selectedEcosystemService : Option String
deriving DecidableEq

/-- The initial state of the page: every hook's initial value
(page.tsx lines 55-67). -/
def initialState : MapperState :=
  { strategy := ""
    isLoading := false
    result := none
    error := none
    progress := ⟨Stage.idle, "", none, none, none⟩
    extractedMaterials := []
    matchedBmfs := []
    ecosystemConnections := []
    ecosystemServices := []
    ecosystemServiceDetails := []
    selectedEcosystemService := none }

/-- A parsed SSE event, tagged by `event_type`. Fields that the source
reads with `event.x as T` (possibly `undefined`) are `Option`s; the
`message` is read with `event.message as string || ""` so it is carried
as an already-defaulted `String`. Unrecognized event types are the
`other` constructor (the switch has no default case and ignores them). -/
inductive StreamEvent
  | stage1_start (message : String) (elapsedMs : Option Nat)
  | stage1_complete (extracted_materials : Option (List String))
      (message : String) (elapsedMs : Option Nat)
  | stage2_start (total_chunks : Option Nat) (message : String) (elapsedMs : Option Nat)
  | stage2_chunk_complete (matched_bmfs : Option (List MatchedBMF))
      (current_chunk : Option Nat) (total_chunks : Option Nat)
      (message : String) (elapsedMs : Option Nat)
  | stage3_start (message : String) (elapsedMs : Option Nat)
  | stage3_complete (ecosystem_connections : Option (List EcosystemConnection))
      (ecosystem_services : Option (List String))
      (ecosystem_service_details : Option (List (String × EcosystemServiceDetail)))
      (message : String) (elapsedMs : Option Nat)
  | complete (message : String) (elapsedMs : Option Nat)
  | result (extracted_materials : Option (List String))
      (matched_bmfs : Option (List MatchedBMF))
      (unmatched_materials : Option (List String))
      (ecosystem_connections : Option (List EcosystemConnection))
      (ecosystem_services : Option (List String))
      (ecosystem_service_details : Option (List (String × EcosystemServiceDetail)))
      (processing_time_ms : Option Nat) (cost_usd : Option Nat)
      (message : String) (elapsedMs : Option Nat)
  | error (err : Option String) (message : String) (elapsedMs : Option Nat)
  | other
deriving DecidableEq

/-- JavaScript `a || b` on strings: the empty string is falsy. -/
def jsOr (s d : String) : String := if s = "" then d else s

/-- String interpolation of a possibly-undefined number
(JavaScript renders `undefined` into a template literal). -/
def showOptNat : Option Nat → String
  | some n => toString n
  | none => "undefined"

/-- Names of a list of matched BMFs. -/
def bmfNames (l : List MatchedBMF) : List String := l.map MatchedBMF.bmf_name

/-- The `setMatchedBmfs` updater of the `stage2_chunk_complete` case
(page.tsx lines 180-185): append only the chunk entries whose `bmf_name`
is not already present in the previous list (the `existingNames` set is
computed from `prev` once, before the filter). -/
def dedupAppend (prev chunk : List MatchedBMF) : List MatchedBMF :=
  prev ++ chunk.filter (fun b => decide (b.bmf_name ∉ bmfNames prev))

/-- The `handleStreamEvent` switch (page.tsx lines 140-247), as a pure reducer
`state → event → state`. -/
def handleStreamEvent (s : MapperState) (e : StreamEvent) : MapperState :=
  match e with
  | StreamEvent.stage1_start message elapsedMs =>
    { s with progress :=
        ⟨Stage.stage1, jsOr message "Analyzing strategy...", none, none, elapsedMs⟩ }
  | StreamEvent.stage1_complete materials message elapsedMs =>
    let ms := materials.getD []
    { s with
      extractedMaterials := ms
      progress := ⟨Stage.stage1,
        jsOr message ("Found " ++ toString ms.length ++ " materials"),
        none, none, elapsedMs⟩ }
  | StreamEvent.stage2_start totalChunks message elapsedMs =>
    { s with progress := ⟨Stage.stage2,
        jsOr message "Matching to BMF database (parallel)...",
        some 0, totalChunks, elapsedMs⟩ }
  | StreamEvent.stage2_chunk_complete chunk currentChunk totalChunks message elapsedMs =>
    let chunkBmfs := chunk.getD []
    let matched :=
      if chunkBmfs.length > 0 then dedupAppend s.matchedBmfs chunkBmfs
      else s.matchedBmfs
    { s with
      matchedBmfs := matched
      progress := { s.progress with
        currentChunk := currentChunk
        message := jsOr message
          ("Chunk " ++ showOptNat currentChunk ++ "/" ++ showOptNat totalChunks
            ++ " complete")
        elapsedMs := elapsedMs } }
  | StreamEvent.stage3_start message elapsedMs =>
    { s with progress := ⟨Stage.stage3,
        jsOr message "Fetching ecosystem service connections...",
        none, none, elapsedMs⟩ }
  | StreamEvent.stage3_complete conns svcs details message elapsedMs =>
    let cs := conns.getD []
    let ss := svcs.getD []
    let ds := details.getD []
    { s with
      ecosystemConnections := cs
      ecosystemServices := ss
      ecosystemServiceDetails := ds
      progress := ⟨Stage.stage3,
        jsOr message ("Found " ++ toString ss.length ++ " ecosystem services"),
        none, none, elapsedMs⟩ }
  | StreamEvent.complete message elapsedMs =>
    { s with progress := ⟨Stage.complete, jsOr message "Complete!", none, none, elapsedMs⟩ }
  | StreamEvent.result em mb um ec esv esd pt cu _message _elapsedMs =>
    { s with
      result := some
        { extracted_materials := em.getD []
          matched_bmfs := mb.getD []
          unmatched_materials := um.getD []
          ecosystem_connections := ec.getD []
          ecosystem_services := esv.getD []
          ecosystem_service_details := esd.getD []
          processing_time_ms := pt.getD 0
          cost_usd := cu.getD 0 }
      ecosystemServiceDetails := esd.getD []
      progress := ⟨Stage.complete, "Analysis complete", none, none, none⟩ }
  | StreamEvent.error err message elapsedMs =>
    { s with
      error := some (jsOr (err.getD "") "Unknown error")
      progress := ⟨Stage.error, jsOr message "Error occurred", none, none, elapsedMs⟩ }
  | StreamEvent.other => s

/-- Applying a sequence of stream events in arrival order. -/
def applyEvents (s : MapperState) (es : List StreamEvent) : MapperState :=
  es.foldl handleStreamEvent s

/-- A `stage2_chunk_complete` event carrying just a payload. -/
def mkChunkEvent (c : List MatchedBMF) : StreamEvent :=
  StreamEvent.stage2_chunk_complete (some c) none none "" none

/-- The `showExtractedMaterials` selector (page.tsx line 256:
`result?.extracted_materials || extractedMaterials`). In JavaScript an
array value is always truthy, even when empty, so whenever `result` is
set its field is used. -/
def showExtractedMaterials (s : MapperState) : List String :=
  match s.result with
  | some r => r.extracted_materials
  | none => s.extractedMaterials

/-- The `showMatchedBmfs` selector (page.tsx line 257). -/
def showMatchedBmfs (s : MapperState) : List MatchedBMF :=
  match s.result with
  | some r => r.matched_bmfs
  | none => s.matchedBmfs

/-- The `showEcosystemConnections` selector (page.tsx line 258). -/
def showEcosystemConnections (s : MapperState) : List EcosystemConnection :=
  match s.result with
  | some r => r.ecosystem_connections
  | none => s.ecosystemConnections

/-- The `showEcosystemServices` selector (page.tsx line 259). -/
def showEcosystemServices (s : MapperState) : List String :=
  match s.result with
  | some r => r.ecosystem_services
  | none => s.ecosystemServices

/-- The `showEcosystemServiceDetails` selector (page.tsx line 260); an object
value is always truthy in JavaScript, even `{}`. -/
def showEcosystemServiceDetails (s : MapperState) : List (String × EcosystemServiceDetail) :=
  match s.result with
  | some r => r.ecosystem_service_details
  | none => s.ecosystemServiceDetails

/-- Outcome of one call to `handleSubmit` (page.tsx lines 69-83), up to
the point where the response stream starts being read. `noop` is the
early `return` of the guard: the function returns before issuing the
HTTP request and before any `set*` call, leaving every piece of state
untouched. `started s` records the state after the reset block, i.e.
the state in effect when the new stream's read loop begins. -/
inductive SubmitOutcome
  | noop
  | started (s : MapperState)
deriving DecidableEq

/-- The guard test `!strategy.trim()` (page.tsx line 71): the trimmed strategy is the
empty string exactly when every character is whitespace. `trim()` strips
whitespace from both ends, so its result is `""` iff the whole string is
whitespace; this models that test directly on the character data. (The
full JavaScript whitespace set also has some Unicode space separators;
only the common ASCII ones matter here.) -/
def strategyBlank (s : String) : Bool := s.data.all Char.isWhitespace

/-- The guard and reset block of `handleSubmit` (page.tsx lines 71-83). -/
def handleSubmit (s : MapperState) : SubmitOutcome :=
  if strategyBlank s.strategy = true ∨ s.isLoading = true then SubmitOutcome.noop
  else SubmitOutcome.started
    { s with
      isLoading := true
      error := none
      result := none
      extractedMaterials := []
      matchedBmfs := []
      ecosystemConnections := []
      ecosystemServices := []
      ecosystemServiceDetails := []
      selectedEcosystemService := none
      progress := ⟨Stage.idle, "Connecting...", none, none, none⟩ }

/-- The `handleEcosystemServiceClick` toggle (page.tsx lines 263-265):
`setSelectedEcosystemService(prev => prev === item.id ? null : item.id)`. -/
def handleEcosystemServiceClick (prev : Option String) (itemId : String) : Option String :=
  if prev == some itemId then none else some itemId

/-! ## Stream frame parser (page.tsx lines 108-131)

The read loop decodes each chunk, appends it to a carry-over buffer,
splits on `"\n"`, keeps the last fragment as the new buffer and scans
the complete lines for a `"data: "` tag. -/

/-- JavaScript `s.split("\n")` on a character list: always returns at
least one (possibly empty) fragment. -/
def splitNL : List Char → List (List Char)
  | [] => [[]]
  | c :: rest =>
    if c = '\n' then [] :: splitNL rest
    else
      match splitNL rest with
      | [] => [[c]]
      | l :: ls => (c :: l) :: ls

/-- The carry-over text buffer of the read loop. -/
structure ParserState where
  buffer : List Char
deriving DecidableEq

/-- One iteration of the read loop for one decoded chunk
(page.tsx lines 115-119): `buffer += chunk; lines = buffer.split("\n");
buffer = lines.pop() || ""` — the emitted lines are all but the last
fragment, which becomes the new buffer. -/
def feedChunk (st : ParserState) (chunk : List Char) : List (List Char) × ParserState :=
  let ls := splitNL (st.buffer ++ chunk)
  (ls.dropLast, ⟨ls.getLastD []⟩)

/-- Running the read loop over a whole sequence of chunks, collecting
the complete lines it emits in order. -/
def feedChunks (st : ParserState) : List (List Char) → List (List Char) × ParserState
  | [] => ([], st)
  | c :: cs =>
    let p := feedChunk st c
    let q := feedChunks p.2 cs
    (p.1 ++ q.1, q.2)

/-- Character-by-character reference model of the same splitting: scan
the input, emitting the buffer at each newline. Used to prove that the
chunked splitting is independent of chunk boundaries. -/
def runChars : List Char → List Char → List (List Char) × List Char
  | buf, [] => ([], buf)
  | buf, c :: rest =>
    if c = '\n' then
      let p := runChars [] rest
      (buf :: p.1, p.2)
    else runChars (buf ++ [c]) rest

/-- The six characters of the `"data: "` line tag. -/
def dataTag : List Char := ['d', 'a', 't', 'a', ':', ' ']

/-- The test `line.startsWith("data: ")` (page.tsx line 122). -/
def isDataLine (l : List Char) : Bool := l.take 6 == dataTag

/-- Processing of one complete line (page.tsx lines 121-130): lines not
starting with `"data: "` yield nothing; for tagged lines the remainder
`line.slice(6)` is JSON-parsed, and a parse failure is caught and the
line skipped (yielding nothing). `parse` abstracts `JSON.parse` plus the
conversion to a typed event. -/
def lineEvent (parse : List Char → Option StreamEvent) (l : List Char) :
    Option StreamEvent :=
  if isDataLine l then parse (l.drop 6) else none

/-- The event sequence extracted from a sequence of complete lines. -/
def eventsOfLines (parse : List Char → Option StreamEvent)
    (lines : List (List Char)) : List StreamEvent :=
  lines.filterMap (lineEvent parse)

/-! ## Bipartite view builder (page.tsx lines 273-313) -/

/-- The `BipartiteItem` interface (BipartiteGraph.tsx lines 23-28); the optional
`meta` field is never set by the mapper page and is omitted. -/
structure BipartiteItem where
  id : String
  label : String
deriving DecidableEq

/-- The `BipartiteConnection` interface (BipartiteGraph.tsx lines 30-35); the optional
`weight` field is never set by the mapper page and is omitted. -/
structure BipartiteConnection where
  sourceId : String
  targetId : String
deriving DecidableEq

/-- The value computed by the `bipartiteData` memo when the connection
list is non-empty. -/
structure GraphView where
  leftItems : List BipartiteItem
  rightItems : List BipartiteItem
  connections : List BipartiteConnection
deriving DecidableEq

/-- JavaScript's `[...new Set(xs)]`: first occurrence of each element, in order. -/
def dedupStringsAux : List String → List String → List String
  | _, [] => []
  | seen, x :: xs =>
    if x ∈ seen then dedupStringsAux seen xs
    else x :: dedupStringsAux (x :: seen) xs

/-- JavaScript's `[...new Set(xs)]` with an initially empty set. -/
def dedupStrings (l : List String) : List String := dedupStringsAux [] l

/-- The dedup key of a connection (page.tsx line 302):
the template literal joins the two names with a hyphen. -/
def connKey (c : EcosystemConnection) : String :=
  c.bmf_name ++ "-" ++ c.ecosystem_service

/-- The `seenConnections` filter (page.tsx lines 298-306): keep a
connection when its string key has not been seen yet. -/
def dedupConnsAux : List String → List EcosystemConnection → List EcosystemConnection
  | _, [] => []
  | seen, c :: cs =>
    if connKey c ∈ seen then dedupConnsAux seen cs
    else c :: dedupConnsAux (connKey c :: seen) cs

/-- Key-based connection dedup with an initially empty seen set. -/
def dedupConns (cs : List EcosystemConnection) : List EcosystemConnection :=
  dedupConnsAux [] cs

/-- The test `bmf.flow_type === "outflow" || bmf.flow_type === "both"`
(page.tsx lines 280-282); an absent `flow_type` fails both tests. -/
def isOutflowCapable (b : MatchedBMF) : Bool :=
  b.flow_type == some FlowType.outflow || b.flow_type == some FlowType.both

/-- Lexicographic order on character lists: the comparison JavaScript's
default sort comparator performs on strings, code unit by code unit. -/
def lexLe : List Char → List Char → Bool
  | [], _ => true
  | _ :: _, [] => false
  | a :: as, b :: bs => if a = b then lexLe as bs else decide (a < b)

/-- Lexicographic order on strings via their character data. -/
def strLe (a b : String) : Bool := lexLe a.data b.data

/-- Insertion of a string into a sorted list, keeping order. -/
def insertSorted (x : String) : List String → List String
  | [] => [x]
  | y :: ys => if strLe x y then x :: y :: ys else y :: insertSorted x ys

/-- JavaScript `Array.prototype.sort()` on strings (default comparator:
lexicographic), modelled with an insertion sort over the lexicographic
order. Duplicate strings are equal values, so stability is immaterial. -/
def sortStrings : List String → List String
  | [] => []
  | x :: xs => insertSorted x (sortStrings xs)

/-- The string key of a built edge, as `connKey` produces it. -/
def edgeKey (e : BipartiteConnection) : String := e.sourceId ++ "-" ++ e.targetId

/-- The local `bmfNames` of the memo (page.tsx line 277):
`[...new Set(showEcosystemConnections.map(c => c.bmf_name))]`. -/
def builderConnBmfNames (ecoConnections : List EcosystemConnection) : List String :=
  dedupStrings (ecoConnections.map EcosystemConnection.bmf_name)

/-- The local `outflowBmfNames` of the memo (page.tsx lines 280-283). -/
def builderOutflowNames (matchedFlows : List MatchedBMF) : List String :=
  (matchedFlows.filter isOutflowCapable).map MatchedBMF.bmf_name

/-- The ids of the local `leftItems` of the memo (page.tsx lines 286-289). -/
def builderLeftIds (matchedFlows : List MatchedBMF)
    (ecoConnections : List EcosystemConnection) : List String :=
  sortStrings ((builderConnBmfNames ecoConnections).filter
    (fun n => decide (n ∈ builderOutflowNames matchedFlows)))

/-- The local `leftItems` of the memo (page.tsx lines 286-289). -/
def builderLeftItems (matchedFlows : List MatchedBMF)
    (ecoConnections : List EcosystemConnection) : List BipartiteItem :=
  (builderLeftIds matchedFlows ecoConnections).map
    (fun n => { id := n, label := n : BipartiteItem })

/-- The local `validBmfNames` of the memo (page.tsx line 297). -/
def builderValidNames (matchedFlows : List MatchedBMF)
    (ecoConnections : List EcosystemConnection) : List String :=
  (builderLeftItems matchedFlows ecoConnections).map BipartiteItem.id

/-- The connections filtered to valid left names (page.tsx line 300). -/
def builderRestricted (matchedFlows : List MatchedBMF)
    (ecoConnections : List EcosystemConnection) : List EcosystemConnection :=
  ecoConnections.filter
    (fun c => decide (c.bmf_name ∈ builderValidNames matchedFlows ecoConnections))

/-- The local `connections` of the memo (page.tsx lines 296-310):
restriction, key dedup, then projection to source/target ids. -/
def builderEdges (matchedFlows : List MatchedBMF)
    (ecoConnections : List EcosystemConnection) : List BipartiteConnection :=
  (dedupConns (builderRestricted matchedFlows ecoConnections)).map
    (fun c => { sourceId := c.bmf_name, targetId := c.ecosystem_service : BipartiteConnection })

/-- The `bipartiteData` memo (page.tsx lines 273-313): `none` models the
early `return null` when there are no connections. -/
def bipartiteData (matchedFlows : List MatchedBMF)
    (ecoConnections : List EcosystemConnection)
    (ecoServices : List String) : Option GraphView :=
  if ecoConnections.length = 0 then none
  else some
    { leftItems := builderLeftItems matchedFlows ecoConnections
      rightItems := (sortStrings ecoServices).map
        (fun n => { id := n, label := n : BipartiteItem })
      connections := builderEdges matchedFlows ecoConnections }

/-- Spec-side comparison definition, following the claim's words rather
than the source: deduplication of connections by the *pair*
(source id, target id), first occurrence winning. The source instead
keys on the concatenated string `connKey`. -/
def dedupConnsByPairAux : List (String × String) → List EcosystemConnection →
    List EcosystemConnection
  | _, [] => []
  | seen, c :: cs =>
    if (c.bmf_name, c.ecosystem_service) ∈ seen then dedupConnsByPairAux seen cs
    else c :: dedupConnsByPairAux ((c.bmf_name, c.ecosystem_service) :: seen) cs

/-- Pair-based dedup with an initially empty seen set (spec-side). -/
def dedupConnsByPair (cs : List EcosystemConnection) : List EcosystemConnection :=
  dedupConnsByPairAux [] cs

/-! ## Hover highlight logic (BipartiteGraph.tsx lines 78-172, 214-299) -/

/-- Highlight classification of an edge or item. -/
inductive HighlightState
  | normal
  | highlighted
  | dimmed
deriving DecidableEq

/-- The neighbor set `connectionsBySource.get(id)` (BipartiteGraph.tsx lines 82-91): the
set of targets of the connections whose source is `id`. A missing map
entry behaves like an empty set (`targets?.has(x)` is falsy). -/
def sourceNeighbors (conns : List BipartiteConnection) (id : String) : List String :=
  (conns.filter (fun c => c.sourceId == id)).map BipartiteConnection.targetId

/-- The neighbor set `connectionsByTarget.get(id)` (BipartiteGraph.tsx lines 93-102). -/
def targetNeighbors (conns : List BipartiteConnection) (id : String) : List String :=
  (conns.filter (fun c => c.targetId == id)).map BipartiteConnection.sourceId

/-- JavaScript truthiness of a nullable string: `null`, `undefined` and
`""` are falsy. -/
def jsTruthy : Option String → Bool
  | none => false
  | some s => !(s == "")

/-- The `getHighlightState` decision (BipartiteGraph.tsx lines 122-146). The outer
`isHovering` test compares with `null` (`!== null`), while the inner
branches use truthiness (`if (hoveredLeftId)`), so a hovered id equal to
`""` falls through to `"normal"`. -/
def getHighlightState (conns : List BipartiteConnection)
    (hoveredLeftId hoveredRightId : Option String)
    (sourceId targetId : String) : HighlightState :=
  if !(hoveredLeftId.isSome || hoveredRightId.isSome) then HighlightState.normal
  else if jsTruthy hoveredLeftId then
    if sourceId == hoveredLeftId.getD "" &&
        (sourceNeighbors conns (hoveredLeftId.getD "")).contains targetId then
      HighlightState.highlighted
    else HighlightState.dimmed
  else if jsTruthy hoveredRightId then
    if targetId == hoveredRightId.getD "" &&
        (targetNeighbors conns (hoveredRightId.getD "")).contains sourceId then
      HighlightState.highlighted
    else HighlightState.dimmed
  else HighlightState.normal

/-- The `isLeftItemHighlighted` decision (BipartiteGraph.tsx lines 148-159): note the
first guard uses truthiness on both hover ids, while the second is a
strict `===` comparison against the item id. -/
def isLeftItemHighlighted (conns : List BipartiteConnection)
    (hoveredLeftId hoveredRightId : Option String) (itemId : String) : Bool :=
  if !(jsTruthy hoveredLeftId) && !(jsTruthy hoveredRightId) then false
  else if hoveredLeftId == some itemId then true
  else if jsTruthy hoveredRightId then
    (targetNeighbors conns (hoveredRightId.getD "")).contains itemId
  else false

/-- The `isRightItemHighlighted` decision (BipartiteGraph.tsx lines 161-172). -/
def isRightItemHighlighted (conns : List BipartiteConnection)
    (hoveredLeftId hoveredRightId : Option String) (itemId : String) : Bool :=
  if !(jsTruthy hoveredLeftId) && !(jsTruthy hoveredRightId) then false
  else if hoveredRightId == some itemId then true
  else if jsTruthy hoveredLeftId then
    (sourceNeighbors conns (hoveredLeftId.getD "")).contains itemId
  else false

/-- Rendered state of a left item (BipartiteGraph.tsx lines 214-225):
highlighted wins; otherwise `isHovering` (a strict `!== null` test,
line 189) dims the item; otherwise it is normal. -/
def leftItemState (conns : List BipartiteConnection)
    (hoveredLeftId hoveredRightId : Option String) (itemId : String) : HighlightState :=
  if isLeftItemHighlighted conns hoveredLeftId hoveredRightId itemId then
    HighlightState.highlighted
  else if hoveredLeftId.isSome || hoveredRightId.isSome then HighlightState.dimmed
  else HighlightState.normal

/-- Rendered state of a right item (BipartiteGraph.tsx lines 275-287). -/
def rightItemState (conns : List BipartiteConnection)
    (hoveredLeftId hoveredRightId : Option String) (itemId : String) : HighlightState :=
  if isRightItemHighlighted conns hoveredLeftId hoveredRightId itemId then
    HighlightState.highlighted
  else if hoveredLeftId.isSome || hoveredRightId.isSome then HighlightState.dimmed
  else HighlightState.normal

/-! ## Auxiliary definitions used only in statements -/

/-- First-occurrence dedup of matched BMFs by name, with a seen
accumulator: the canonical "each name exactly once, first seen wins,
in order of first appearance" list. -/
def dedupFirstAux : List String → List MatchedBMF → List MatchedBMF
  | _, [] => []
  | seen, b :: rest =>
    if b.bmf_name ∈ seen then dedupFirstAux seen rest
    else b :: dedupFirstAux (b.bmf_name :: seen) rest

/-- First-occurrence dedup by name from an empty seen set. -/
def dedupFirst (l : List MatchedBMF) : List MatchedBMF := dedupFirstAux [] l

/-- The names recorded after scanning a list of BMFs, starting from a
given seen set (mirrors the accumulation of `dedupFirstAux`). -/
def seenAfter : List String → List MatchedBMF → List String
  | seen, [] => seen
  | seen, b :: l =>
    seenAfter (if b.bmf_name ∈ seen then seen else b.bmf_name :: seen) l

/-- Whether an event's chunk payload (if it is a `stage2_chunk_complete`)
carries internally distinct flow names. -/
def chunkPayloadOk : StreamEvent → Bool
  | StreamEvent.stage2_chunk_complete mb _ _ _ _ => decide ((bmfNames (mb.getD [])).Nodup)
  | _ => true

/-- Concrete flows for the key-collision counterexample. -/
def cexFlows : List MatchedBMF :=
  [{ bmf_name := "a", flow_type := some FlowType.outflow, confidence := Confidence.high,
     matched_materials := [], reason := "" },
   { bmf_name := "a-b", flow_type := some FlowType.outflow, confidence := Confidence.high,
     matched_materials := [], reason := "" }]

/-- Concrete connections for the key-collision counterexample: the two
records have distinct (source, target) pairs but identical string keys
`"a-b-c"`. -/
def cexConns : List EcosystemConnection :=
  [{ bmf_name := "a-b", ecosystem_service := "c", relationship_type := "r" },
   { bmf_name := "a", ecosystem_service := "b-c", relationship_type := "r" }]

/-- Concrete services for the key-collision counterexample. -/
def cexSvcs : List String := ["c", "b-c"]

/-- Concrete matched flow used by witnesses. -/
def wA : MatchedBMF :=
  { bmf_name := "a", flow_type := none, confidence := Confidence.high,
    matched_materials := [], reason := "first" }

/-- A second observation of the flow named `"a"`, with different
payload fields, used by witnesses. -/
def wA2 : MatchedBMF :=
  { bmf_name := "a", flow_type := none, confidence := Confidence.low,
    matched_materials := [], reason := "second" }

/-- Concrete matched flow with a fresh name, used by witnesses. -/
def wB : MatchedBMF :=
  { bmf_name := "b", flow_type := none, confidence := Confidence.medium,
    matched_materials := [], reason := "" }

/-- Concrete outflow-capable flow, used by the view-builder witness. -/
def wOutflow : MatchedBMF :=
  { bmf_name := "s", flow_type := some FlowType.outflow,
    confidence := Confidence.high, matched_materials := [], reason := "" }

/-- Concrete ecosystem connection, used by the view-builder witness. -/
def wConn : EcosystemConnection :=
  { bmf_name := "s", ecosystem_service := "habitat", relationship_type := "supports" }

/-- The graph view the builder produces on the witness input. -/
def wView : GraphView :=
  { leftItems := [{ id := "s", label := "s" }]
    rightItems := [{ id := "habitat", label := "habitat" }]
    connections := [{ sourceId := "s", targetId := "habitat" }] }

/-! # Theorems -/

/-- C2: applying a terminal `result` event makes every display selector
return the corresponding field of that event's payload (with the
source's `|| []` / `|| 0` defaults), whatever partial state had
accumulated before, and moves the stage to `complete`: after a `result`
event the view reflects only the `result` payload. -/
theorem result_event_overwrites_view (s : MapperState)
    (em : Option (List String)) (mb : Option (List MatchedBMF))
    (um : Option (List String)) (ec : Option (List EcosystemConnection))
    (esv : Option (List String))
    (esd : Option (List (String × EcosystemServiceDetail)))
    (pt cu : Option Nat) (msg : String) (el : Option Nat) :
    showExtractedMaterials
        (handleStreamEvent s (StreamEvent.result em mb um ec esv esd pt cu msg el))
      = em.getD []
    ∧ showMatchedBmfs
        (handleStreamEvent s (StreamEvent.result em mb um ec esv esd pt cu msg el))
      = mb.getD []
    ∧ showEcosystemConnections
        (handleStreamEvent s (StreamEvent.result em mb um ec esv esd pt cu msg el))
      = ec.getD []
    ∧ showEcosystemServices
        (handleStreamEvent s (StreamEvent.result em mb um ec esv esd pt cu msg el))
      = esv.getD []
    ∧ showEcosystemServiceDetails
        (handleStreamEvent s (StreamEvent.result em mb um ec esv esd pt cu msg el))
      = esd.getD []
    ∧ (handleStreamEvent s (StreamEvent.result em mb um ec esv esd pt cu msg el)).result
      = some
        { extracted_materials := em.getD []
          matched_bmfs := mb.getD []
          unmatched_materials := um.getD []
          ecosystem_connections := ec.getD []
          ecosystem_services := esv.getD []
          ecosystem_service_details := esd.getD []
          processing_time_ms := pt.getD 0
          cost_usd := cu.getD 0 }
    ∧ (handleStreamEvent s (StreamEvent.result em mb um ec esv esd pt cu msg el)).progress.stage
      = Stage.complete :=
  ⟨rfl, rfl, rfl, rfl, rfl, rfl, rfl⟩

/-- C8 (supporting theorem for the page-side handler, which does exist
in the source): the click handler toggles the selected-service id —
clicking while nothing is selected selects the clicked id, clicking the
already selected id clears the selection, and clicking any other id
replaces the selection. -/
theorem ecosystem_service_click_toggles (id a b : String) :
    handleEcosystemServiceClick (some id) id = none
    ∧ handleEcosystemServiceClick none id = some id
    ∧ handleEcosystemServiceClick (some a) b
      = (if a = b then none else some b) := by
  refine ⟨by simp [handleEcosystemServiceClick], by simp [handleEcosystemServiceClick], ?_⟩
  by_cases hab : a = b
  · simp [handleEcosystemServiceClick, hab]
  · simp [handleEcosystemServiceClick, hab]

/-- C9 counterexample: the error state is not absorbing within a run —
after an `error` event, a later `stage1_start` event moves the stage
back to `stage1`, and a later `stage1_complete` event mutates the
snapshot's data fields. -/
theorem error_state_not_absorbing_cex :
    (applyEvents initialState
        [StreamEvent.error (some "boom") "" none,
          StreamEvent.stage1_start "" none]).progress.stage = Stage.stage1
    ∧ (applyEvents initialState
        [StreamEvent.error (some "boom") "" none,
          StreamEvent.stage1_complete (some ["m"]) "" none]).extractedMaterials = ["m"]
    ∧ Stage.stage1 ≠ Stage.error := by
  refine ⟨rfl, rfl, by decide⟩

/-- C9 as amended: applying an `error` event sets the stage to `error`,
records the error message, and mutates none of the snapshot's data
fields; and whenever the `error` event is the last event applied in the
run, the run ends in the `error` stage. (The handler does not guard
subsequent events, so a later event in the same run can leave the error
state — see the counterexample.) -/
theorem error_event_effect_and_terminal (s : MapperState) (err : Option String)
    (m : String) (el : Option Nat) (es : List StreamEvent) :
    (handleStreamEvent s (StreamEvent.error err m el)).progress.stage = Stage.error
    ∧ (handleStreamEvent s (StreamEvent.error err m el)).error
      = some (jsOr (err.getD "") "Unknown error")
    ∧ (handleStreamEvent s (StreamEvent.error err m el)).extractedMaterials
      = s.extractedMaterials
    ∧ (handleStreamEvent s (StreamEvent.error err m el)).matchedBmfs = s.matchedBmfs
    ∧ (handleStreamEvent s (StreamEvent.error err m el)).ecosystemConnections
      = s.ecosystemConnections
    ∧ (handleStreamEvent s (StreamEvent.error err m el)).ecosystemServices
      = s.ecosystemServices
    ∧ (handleStreamEvent s (StreamEvent.error err m el)).ecosystemServiceDetails
      = s.ecosystemServiceDetails
    ∧ (handleStreamEvent s (StreamEvent.error err m el)).result = s.result
    ∧ (handleStreamEvent s (StreamEvent.error err m el)).selectedEcosystemService
      = s.selectedEcosystemService
    ∧ (applyEvents s (es ++ [StreamEvent.error err m el])).progress.stage = Stage.error := by
  refine ⟨rfl, rfl, rfl, rfl, rfl, rfl, rfl, rfl, rfl, ?_⟩
  show (List.foldl handleStreamEvent s (es ++ [StreamEvent.error err m el])).progress.stage
    = Stage.error
  rw [List.foldl_append]
  rfl

/-- C10: the submit handler is a no-op when the strategy is blank
(empty or whitespace-only) or a request is already in flight — it
returns before issuing the HTTP request, leaving all state untouched —
and when the guard passes it resets every result-related field to its
empty value (and the progress stage to `idle`) before the new stream is
read, keeping the strategy text and setting `isLoading`. -/
theorem submit_guard_and_reset (s t : MapperState)
    (hs : strategyBlank s.strategy = true ∨ s.isLoading = true)
    (ht1 : strategyBlank t.strategy = false) (ht2 : t.isLoading = false) :
    handleSubmit s = SubmitOutcome.noop
    ∧ ∃ u, handleSubmit t = SubmitOutcome.started u
        ∧ u.result = none
        ∧ u.error = none
        ∧ u.extractedMaterials = []
        ∧ u.matchedBmfs = []
        ∧ u.ecosystemConnections = []
        ∧ u.ecosystemServices = []
        ∧ u.ecosystemServiceDetails = []
        ∧ u.selectedEcosystemService = none
        ∧ u.progress.stage = Stage.idle
        ∧ u.isLoading = true
        ∧ u.strategy = t.strategy := by
  constructor
  · rw [handleSubmit, if_pos hs]
  · refine ⟨{ t with
      isLoading := true
      error := none
      result := none
      extractedMaterials := []
      matchedBmfs := []
      ecosystemConnections := []
      ecosystemServices := []
      ecosystemServiceDetails := []
      selectedEcosystemService := none
      progress := ⟨Stage.idle, "Connecting...", none, none, none⟩ },
      ?_, rfl, rfl, rfl, rfl, rfl, rfl, rfl, rfl, rfl, rfl, rfl⟩
    rw [handleSubmit, if_neg]
    rintro (h1 | h2)
    · rw [ht1] at h1; exact Bool.false_ne_true h1
    · rw [ht2] at h2; exact Bool.false_ne_true h2

/-- Witness for `submit_guard_and_reset` at concrete states: a
whitespace-only strategy on one side, a non-blank idle state on the
other. -/
theorem submit_guard_and_reset_witness :
    (strategyBlank (initialState.strategy) = true ∨ initialState.isLoading = true)
    ∧ strategyBlank ({ initialState with strategy := " x " } : MapperState).strategy = false
    ∧ ({ initialState with strategy := " x " } : MapperState).isLoading = false
    ∧ (handleSubmit initialState = SubmitOutcome.noop
      ∧ ∃ u, handleSubmit ({ initialState with strategy := " x " } : MapperState)
            = SubmitOutcome.started u
          ∧ u.result = none
          ∧ u.error = none
          ∧ u.extractedMaterials = []
          ∧ u.matchedBmfs = []
          ∧ u.ecosystemConnections = []
          ∧ u.ecosystemServices = []
          ∧ u.ecosystemServiceDetails = []
          ∧ u.selectedEcosystemService = none
          ∧ u.progress.stage = Stage.idle
          ∧ u.isLoading = true
          ∧ u.strategy = ({ initialState with strategy := " x " } : MapperState).strategy) :=
  ⟨Or.inl (by decide), by decide, by decide,
    submit_guard_and_reset initialState { initialState with strategy := " x " }
      (Or.inl (by decide)) (by decide) (by decide)⟩

/-- Membership in the name list of a batch. -/
theorem mem_bmfNames {x : String} {l : List MatchedBMF} :
    x ∈ bmfNames l ↔ ∃ b ∈ l, b.bmf_name = x := by
  simp [bmfNames]

/-- A name appears after a dedup-append iff it appeared on either side. -/
theorem bmfNames_dedupAppend (p c : List MatchedBMF) (x : String) :
    x ∈ bmfNames (dedupAppend p c) ↔ x ∈ bmfNames p ∨ x ∈ bmfNames c := by
  simp only [dedupAppend, bmfNames, List.map_append, List.mem_append]
  constructor
  · rintro (h | h)
    · exact Or.inl h
    · rcases List.mem_map.mp h with ⟨b, hb, rfl⟩
      exact Or.inr (List.mem_map.mpr ⟨b, (List.mem_filter.mp hb).1, rfl⟩)
  · rintro (h | h)
    · exact Or.inl h
    · by_cases hp : x ∈ List.map MatchedBMF.bmf_name p
      · exact Or.inl hp
      · rcases List.mem_map.mp h with ⟨b, hb, rfl⟩
        refine Or.inr (List.mem_map.mpr ⟨b, List.mem_filter.mpr ⟨hb, ?_⟩, rfl⟩)
        simpa [bmfNames] using hp
  
/-- The matched-flow names present after folding dedup-appends are
exactly those of the start state together with those of the batches. -/
theorem mem_bmfNames_foldl (cs : List (List MatchedBMF)) (p : List MatchedBMF)
    (x : String) :
    x ∈ bmfNames (List.foldl dedupAppend p cs) ↔
      x ∈ bmfNames p ∨ ∃ c ∈ cs, x ∈ bmfNames c := by
  induction cs generalizing p with
  | nil => simp
  | cons c cs ih =>
    rw [List.foldl_cons, ih, bmfNames_dedupAppend]
    simp [or_assoc]

/-- The dedup `dedupFirstAux` only depends on the seen accumulator through
membership. -/
theorem dedupFirstAux_congr (s₁ s₂ : List String) (l : List MatchedBMF)
    (h : ∀ x, x ∈ s₁ ↔ x ∈ s₂) : dedupFirstAux s₁ l = dedupFirstAux s₂ l := by
  induction l generalizing s₁ s₂ with
  | nil => rfl
  | cons b l ih =>
    simp only [dedupFirstAux]
    by_cases hb : b.bmf_name ∈ s₁
    · rw [if_pos hb, if_pos ((h _).1 hb), ih _ _ h]
    · rw [if_neg hb, if_neg (fun hc => hb ((h _).2 hc))]
      congr 1
      refine ih _ _ (fun x => ?_)
      simp [List.mem_cons, h x]

/-- Splitting a first-occurrence dedup at a list append. -/
theorem dedupFirstAux_append (seen : List String) (l₁ l₂ : List MatchedBMF) :
    dedupFirstAux seen (l₁ ++ l₂) =
      dedupFirstAux seen l₁ ++ dedupFirstAux (seenAfter seen l₁) l₂ := by
  induction l₁ generalizing seen with
  | nil => rfl
  | cons b l ih =>
    simp only [List.cons_append, dedupFirstAux, seenAfter, List.append_eq]
    by_cases hb : b.bmf_name ∈ seen
    · rw [if_pos hb, if_pos hb, if_pos hb, ih]
    · rw [if_neg hb, if_neg hb, if_neg hb, ih, List.cons_append]

/-- Membership in the accumulated seen set after a scan. -/
theorem mem_seenAfter (l : List MatchedBMF) (seen : List String) (x : String) :
    x ∈ seenAfter seen l ↔ x ∈ seen ∨ x ∈ bmfNames l := by
  induction l generalizing seen with
  | nil => simp [seenAfter, bmfNames]
  | cons b l ih =>
    simp only [seenAfter, bmfNames, List.map_cons]
    by_cases hb : b.bmf_name ∈ seen
    · rw [if_pos hb, ih]
      constructor
      · rintro (h | h)
        · exact Or.inl h
        · exact Or.inr (List.mem_cons_of_mem _ h)
      · rintro (h | h)
        · exact Or.inl h
        · rcases List.mem_cons.mp h with rfl | h2
          · exact Or.inl hb
          · exact Or.inr h2
    · rw [if_neg hb, ih]
      constructor
      · rintro (h | h)
        · rcases List.mem_cons.mp h with rfl | h2
          · exact Or.inr (List.mem_cons_self _ _)
          · exact Or.inl h2
        · exact Or.inr (List.mem_cons_of_mem _ h)
      · rintro (h | h)
        · exact Or.inl (List.mem_cons_of_mem _ h)
        · rcases List.mem_cons.mp h with rfl | h2
          · exact Or.inl (List.mem_cons_self _ _)
          · exact Or.inr h2

/-- On a batch with internally distinct names, first-occurrence dedup
is exactly the filter the source performs against the seen set. -/
theorem dedupFirstAux_eq_filter (c : List MatchedBMF) (seen : List String)
    (h : (bmfNames c).Nodup) :
    dedupFirstAux seen c = c.filter (fun b => decide (b.bmf_name ∉ seen)) := by
  induction c generalizing seen with
  | nil => rfl
  | cons b c ih =>
    have hbc : b.bmf_name ∉ bmfNames c ∧ (bmfNames c).Nodup := by
      simpa [bmfNames, List.nodup_cons] using h
    simp only [dedupFirstAux, List.filter_cons]
    by_cases hb : b.bmf_name ∈ seen
    · rw [if_pos hb, ih _ hbc.2]
      simp [hb]
    · rw [if_neg hb, ih _ hbc.2]
      have hcong : c.filter (fun y => decide (y.bmf_name ∉ b.bmf_name :: seen))
          = c.filter (fun y => decide (y.bmf_name ∉ seen)) := by
        refine List.filter_congr (fun y hy => ?_)
        have hne : y.bmf_name ≠ b.bmf_name :=
          fun he => hbc.1 (he ▸ mem_bmfNames.mpr ⟨y, hy, rfl⟩)
        simp [List.mem_cons, hne]
      rw [hcong]
      simp [hb]

/-- Folding the source's dedup-append over batches equals a single
first-occurrence dedup of their concatenation, provided each batch has
internally distinct names. -/
theorem foldl_dedupAppend_eq (cs : List (List MatchedBMF)) (p : List MatchedBMF)
    (h : ∀ c ∈ cs, (bmfNames c).Nodup) :
    List.foldl dedupAppend p cs = p ++ dedupFirstAux (bmfNames p) cs.flatten := by
  induction cs generalizing p with
  | nil => simp [dedupFirstAux]
  | cons c cs ih =>
    have hc : (bmfNames c).Nodup := h c (List.mem_cons_self _ _)
    have hcs : ∀ d ∈ cs, (bmfNames d).Nodup := fun d hd => h d (List.mem_cons_of_mem _ hd)
    rw [List.foldl_cons, List.flatten_cons, ih _ hcs, dedupFirstAux_append,
      dedupFirstAux_eq_filter _ _ hc, ← List.append_assoc]
    show dedupAppend p c ++ dedupFirstAux (bmfNames (dedupAppend p c)) cs.flatten
      = dedupAppend p c ++ dedupFirstAux (seenAfter (bmfNames p) c) cs.flatten
    congr 1
    refine dedupFirstAux_congr _ _ _ (fun x => ?_)
    rw [bmfNames_dedupAppend, mem_seenAfter]

/-- First-occurrence dedup yields pairwise distinct names, none of them
in the seen set. -/
theorem dedupFirstAux_names_nodup (l : List MatchedBMF) (seen : List String) :
    (bmfNames (dedupFirstAux seen l)).Nodup
    ∧ ∀ x ∈ bmfNames (dedupFirstAux seen l), x ∉ seen := by
  induction l generalizing seen with
  | nil => exact ⟨List.nodup_nil, by simp [dedupFirstAux, bmfNames]⟩
  | cons b l ih =>
    simp only [dedupFirstAux]
    by_cases hb : b.bmf_name ∈ seen
    · rw [if_pos hb]
      exact ih seen
    · rw [if_neg hb]
      have h1 := (ih (b.bmf_name :: seen)).1
      have h2 := (ih (b.bmf_name :: seen)).2
      constructor
      · simp only [bmfNames, List.map_cons, List.nodup_cons]
        refine ⟨fun hmem => ?_, h1⟩
        exact h2 _ hmem (List.mem_cons_self _ _)
      · intro x hx
        simp only [bmfNames, List.map_cons, List.mem_cons] at hx
        rcases hx with rfl | hx2
        · exact hb
        · exact fun hs => h2 x hx2 (List.mem_cons_of_mem _ hs)

/-- The matched list produced by a `stage2_chunk_complete` event is the
dedup-append of the previous list with the (defaulted) payload; the
`chunkBmfs.length > 0` guard of the source is immaterial because
appending a filtered empty payload is the identity. -/
theorem chunk_event_matched (s : MapperState) (mb : Option (List MatchedBMF))
    (ck tk : Option Nat) (m : String) (el : Option Nat) :
    (handleStreamEvent s (StreamEvent.stage2_chunk_complete mb ck tk m el)).matchedBmfs
      = dedupAppend s.matchedBmfs (mb.getD []) := by
  cases mb with
  | none => simp [handleStreamEvent, dedupAppend]
  | some c =>
    cases c with
    | nil => simp [handleStreamEvent, dedupAppend]
    | cons b bs => simp [handleStreamEvent, dedupAppend]

/-- Applying a sequence of chunk events folds dedup-appends over the
payloads. -/
theorem applyEvents_chunks (cs : List (List MatchedBMF)) (s : MapperState) :
    (applyEvents s (cs.map mkChunkEvent)).matchedBmfs
      = List.foldl dedupAppend s.matchedBmfs cs := by
  induction cs generalizing s with
  | nil => rfl
  | cons c cs ih =>
    show (applyEvents (handleStreamEvent s (mkChunkEvent c)) (cs.map mkChunkEvent)).matchedBmfs
      = _
    rw [ih, List.foldl_cons]
    congr 1
    exact chunk_event_matched s (some c) none none "" none

/-- Re-applying the same chunk payload adds nothing: the dedup-append is
idempotent in its second argument. -/
theorem dedupAppend_idem (p c : List MatchedBMF) :
    dedupAppend (dedupAppend p c) c = dedupAppend p c := by
  have hnil : c.filter (fun b => decide (b.bmf_name ∉ bmfNames (dedupAppend p c))) = [] := by
    rw [List.filter_eq_nil_iff]
    intro b hb
    simp only [decide_eq_true_eq, not_not]
    exact (bmfNames_dedupAppend p c b.bmf_name).mpr
      (Or.inr (mem_bmfNames.mpr ⟨b, hb, rfl⟩))
  conv_lhs => rw [dedupAppend]
  rw [hnil, List.append_nil]

/-- Dedup-append preserves distinctness of names when the incoming
batch has internally distinct names. -/
theorem dedupAppend_nodup (p c : List MatchedBMF)
    (hp : (bmfNames p).Nodup) (hc : (bmfNames c).Nodup) :
    (bmfNames (dedupAppend p c)).Nodup := by
  show (List.map MatchedBMF.bmf_name (p ++ _)).Nodup
  rw [List.map_append]
  refine List.Nodup.append hp ?_ ?_
  · exact List.Nodup.sublist (List.Sublist.map _ (List.filter_sublist _)) hc
  · intro x hxp hxf
    rcases List.mem_map.mp hxf with ⟨b, hb, rfl⟩
    have := (List.mem_filter.mp hb).2
    simp only [decide_eq_true_eq] at this
    exact this (by simpa [bmfNames] using hxp)

/-- Every event extends the matched-flow list: the previous list is an
initial segment of the new one. -/
theorem matched_extends (s : MapperState) (e : StreamEvent) :
    ∃ t, (handleStreamEvent s e).matchedBmfs = s.matchedBmfs ++ t := by
  cases e
  case stage2_chunk_complete mb ck tk m el =>
    exact ⟨_, chunk_event_matched s mb ck tk m el⟩
  all_goals exact ⟨[], (List.append_nil _).symm⟩

/-- A single event preserves distinctness of matched-flow names when
its chunk payload (if any) has internally distinct names. -/
theorem matched_nodup_step (s : MapperState) (e : StreamEvent)
    (hs : (bmfNames s.matchedBmfs).Nodup) (he : chunkPayloadOk e = true) :
    (bmfNames (handleStreamEvent s e).matchedBmfs).Nodup := by
  cases e
  case stage2_chunk_complete mb ck tk m el =>
    rw [chunk_event_matched]
    refine dedupAppend_nodup _ _ hs ?_
    simpa [chunkPayloadOk] using he
  all_goals exact hs

/-- Distinctness of matched-flow names is an invariant of event
application, assuming each chunk payload is internally duplicate-free. -/
theorem matched_nodup_invariant (es : List StreamEvent) (s : MapperState)
    (h : ∀ e ∈ es, chunkPayloadOk e = true)
    (hs : (bmfNames s.matchedBmfs).Nodup) :
    (bmfNames (applyEvents s es).matchedBmfs).Nodup := by
  induction es generalizing s with
  | nil => exact hs
  | cons e es ih =>
    exact ih _ (fun d hd => h d (List.mem_cons_of_mem _ hd))
      (matched_nodup_step s e hs (h e (List.mem_cons_self _ _)))

/-- C1 counterexample: a single `stage2_chunk_complete` event whose
payload repeats a flow name yields that name twice in the resulting
matched-flow list — the dedup filters only against previously
accumulated names, not within a payload — so the list does not contain
each flow name exactly once. -/
theorem stage2_chunk_duplicate_names_cex :
    bmfNames (applyEvents initialState
        [mkChunkEvent
          [{ bmf_name := "x", flow_type := none, confidence := Confidence.high,
             matched_materials := [], reason := "first" },
           { bmf_name := "x", flow_type := none, confidence := Confidence.low,
             matched_materials := [], reason := "second" }]]).matchedBmfs = ["x", "x"]
    ∧ ¬ (bmfNames (applyEvents initialState
        [mkChunkEvent
          [{ bmf_name := "x", flow_type := none, confidence := Confidence.high,
             matched_materials := [], reason := "first" },
           { bmf_name := "x", flow_type := none, confidence := Confidence.low,
             matched_materials := [], reason := "second" }]]).matchedBmfs).Nodup :=
  ⟨rfl, by decide⟩

/-- C1 as amended: for every sequence of `stage2_chunk_complete` events
whose payloads each carry internally distinct names (names may overlap
and repeat freely across events), the resulting matched-flow list is
exactly the first-occurrence dedup of the concatenated payloads — each
name exactly once, in order of first appearance, a record with an
already-present name dropped rather than merged; the set of names is
independent of the order in which the chunk events arrive; and chunk
application is idempotent. -/
theorem stage2_chunk_fold_first_seen_wins (cs csp : List (List MatchedBMF))
    (p c : List MatchedBMF) (x : String)
    (h : ∀ d ∈ cs, (bmfNames d).Nodup) (hperm : cs.Perm csp) :
    (applyEvents initialState (cs.map mkChunkEvent)).matchedBmfs = dedupFirst cs.flatten
    ∧ (bmfNames (applyEvents initialState (cs.map mkChunkEvent)).matchedBmfs).Nodup
    ∧ (x ∈ bmfNames (applyEvents initialState (csp.map mkChunkEvent)).matchedBmfs ↔
        x ∈ bmfNames (applyEvents initialState (cs.map mkChunkEvent)).matchedBmfs)
    ∧ dedupAppend (dedupAppend p c) c = dedupAppend p c := by
  have h1 : (applyEvents initialState (cs.map mkChunkEvent)).matchedBmfs
      = dedupFirst cs.flatten := by
    rw [applyEvents_chunks, foldl_dedupAppend_eq _ _ h]
    rfl
  refine ⟨h1, ?_, ?_, dedupAppend_idem p c⟩
  · rw [h1]
    exact (dedupFirstAux_names_nodup _ _).1
  · rw [applyEvents_chunks, applyEvents_chunks, mem_bmfNames_foldl, mem_bmfNames_foldl]
    constructor
    · rintro (hx | ⟨d, hd, hxd⟩)
      · exact Or.inl hx
      · exact Or.inr ⟨d, hperm.mem_iff.mpr hd, hxd⟩
    · rintro (hx | ⟨d, hd, hxd⟩)
      · exact Or.inl hx
      · exact Or.inr ⟨d, hperm.mem_iff.mp hd, hxd⟩

/-- Witness for `stage2_chunk_fold_first_seen_wins` at two concrete
chunk sequences that are permutations of each other, with the name
`"a"` repeated across chunks. -/
theorem stage2_chunk_fold_first_seen_wins_witness :
    (∀ d ∈ ([[wA], [wB, wA2]] : List (List MatchedBMF)), (bmfNames d).Nodup)
    ∧ ([[wA], [wB, wA2]] : List (List MatchedBMF)).Perm [[wB, wA2], [wA]]
    ∧ ((applyEvents initialState ([[wA], [wB, wA2]].map mkChunkEvent)).matchedBmfs
        = dedupFirst ([[wA], [wB, wA2]] : List (List MatchedBMF)).flatten
      ∧ (bmfNames (applyEvents initialState
          ([[wA], [wB, wA2]].map mkChunkEvent)).matchedBmfs).Nodup
      ∧ ("a" ∈ bmfNames (applyEvents initialState
            ([[wB, wA2], [wA]].map mkChunkEvent)).matchedBmfs ↔
          "a" ∈ bmfNames (applyEvents initialState
            ([[wA], [wB, wA2]].map mkChunkEvent)).matchedBmfs)
      ∧ dedupAppend (dedupAppend [wA] [wA2, wB]) [wA2, wB] = dedupAppend [wA] [wA2, wB]) :=
  ⟨by decide, by decide,
    stage2_chunk_fold_first_seen_wins [[wA], [wB, wA2]] [[wB, wA2], [wA]]
      [wA] [wA2, wB] "a" (by decide) (by decide)⟩

/-- C3 counterexample: a reachable snapshot state whose matched-flow
list contains two entries with the same name — produced by one chunk
event whose payload repeats the name `"dup"`. -/
theorem matched_flow_nodup_invariant_cex :
    ¬ (bmfNames (applyEvents initialState
        [mkChunkEvent
          [{ bmf_name := "dup", flow_type := none, confidence := Confidence.high,
             matched_materials := [], reason := "" },
           { bmf_name := "dup", flow_type := none, confidence := Confidence.medium,
             matched_materials := [], reason := "" }]]).matchedBmfs).Nodup := by
  decide

/-- C3 as amended: for every event the matched-flow list only ever
extends (the previous list is an initial segment of the new one, so it
never shrinks); and every state reached from the empty snapshot has
pairwise distinct matched-flow names provided each chunk event's
payload is internally duplicate-free (duplicates across events are
still allowed and deduplicated). -/
theorem matched_flow_list_monotone_nodup (s : MapperState) (e : StreamEvent)
    (es : List StreamEvent) (h : ∀ d ∈ es, chunkPayloadOk d = true) :
    (∃ t, (handleStreamEvent s e).matchedBmfs = s.matchedBmfs ++ t)
    ∧ (bmfNames (applyEvents initialState es).matchedBmfs).Nodup :=
  ⟨matched_extends s e,
    matched_nodup_invariant es initialState h List.nodup_nil⟩

/-- Witness for `matched_flow_list_monotone_nodup` at a concrete state,
event and event sequence (which repeats the name `"a"` across chunks
and interleaves a non-chunk event). -/
theorem matched_flow_list_monotone_nodup_witness :
    (∀ d ∈ [mkChunkEvent [wA], StreamEvent.stage3_start "" none,
        mkChunkEvent [wB, wA2]], chunkPayloadOk d = true)
    ∧ ((∃ t, (handleStreamEvent { initialState with matchedBmfs := [wA] }
          (mkChunkEvent [wB])).matchedBmfs
        = ({ initialState with matchedBmfs := [wA] } : MapperState).matchedBmfs ++ t)
      ∧ (bmfNames (applyEvents initialState
          [mkChunkEvent [wA], StreamEvent.stage3_start "" none,
            mkChunkEvent [wB, wA2]]).matchedBmfs).Nodup) :=
  ⟨by decide,
    matched_flow_list_monotone_nodup { initialState with matchedBmfs := [wA] }
      (mkChunkEvent [wB])
      [mkChunkEvent [wA], StreamEvent.stage3_start "" none, mkChunkEvent [wB, wA2]]
      (by decide)⟩

/-- Splitting always yields at least one fragment. -/
theorem splitNL_ne_nil (l : List Char) : splitNL l ≠ [] := by
  cases l with
  | nil => simp [splitNL]
  | cons c rest =>
    simp only [splitNL]
    by_cases hc : c = '\n'
    · rw [if_pos hc]
      simp
    · rw [if_neg hc]
      cases hs : splitNL rest with
      | nil => simp
      | cons l ls => simp

/-- A newline-free list splits into the single fragment it is. -/
theorem splitNL_no_newline (l : List Char) (h : '\n' ∉ l) : splitNL l = [l] := by
  induction l with
  | nil => rfl
  | cons c rest ih =>
    have hc : c ≠ '\n' := fun he => h (he ▸ List.mem_cons_self c rest)
    have hr : '\n' ∉ rest := fun hm => h (List.mem_cons_of_mem c hm)
    simp only [splitNL, if_neg hc]
    rw [ih hr]

/-- Splitting at an explicit newline after a newline-free buffer. -/
theorem splitNL_newline_append (buf rest : List Char) (h : '\n' ∉ buf) :
    splitNL (buf ++ '\n' :: rest) = buf :: splitNL rest := by
  induction buf with
  | nil => simp [splitNL]
  | cons d buf ih =>
    have hd : d ≠ '\n' := fun he => h (he ▸ List.mem_cons_self d buf)
    have hb : '\n' ∉ buf := fun hm => h (List.mem_cons_of_mem d hm)
    simp only [List.cons_append, splitNL, if_neg hd, List.append_eq]
    rw [ih hb]

/-- Dropping the last element of a cons with a non-empty tail. -/
theorem dropLast_cons_ne_nil {α : Type} (a : α) (l : List α) (h : l ≠ []) :
    (a :: l).dropLast = a :: l.dropLast := by
  cases l with
  | nil => exact absurd rfl h
  | cons b m => rfl

/-- Taking `getLastD` of a cons with a non-empty tail ignores the head and the
default. -/
theorem getLastD_cons_ne_nil {α : Type} (a d : α) (l : List α) (h : l ≠ []) :
    (a :: l).getLastD d = l.getLastD d := by
  cases l with
  | nil => exact absurd rfl h
  | cons b m => simp [List.getLastD_cons]

/-- The character-by-character scanner agrees with split-based chunk
processing: on a newline-free carry-over buffer, scanning the input
emits exactly the complete fragments of `splitNL` and retains the last
fragment. -/
theorem runChars_eq_splitNL (s buf : List Char) (h : '\n' ∉ buf) :
    runChars buf s
      = ((splitNL (buf ++ s)).dropLast, (splitNL (buf ++ s)).getLastD []) := by
  induction s generalizing buf with
  | nil =>
    rw [List.append_nil, splitNL_no_newline buf h]
    rfl
  | cons c rest ih =>
    by_cases hc : c = '\n'
    · subst hc
      have e1 : runChars buf ('\n' :: rest)
          = (buf :: (runChars [] rest).1, (runChars [] rest).2) := by
        simp [runChars]
      rw [e1, ih [] (by simp)]
      simp only [List.nil_append]
      rw [splitNL_newline_append buf rest h,
        dropLast_cons_ne_nil _ _ (splitNL_ne_nil rest),
        getLastD_cons_ne_nil _ _ _ (splitNL_ne_nil rest)]
    · have hb : '\n' ∉ buf ++ [c] := by
        intro hm
        rcases List.mem_append.mp hm with h1 | h1
        · exact h h1
        · rw [List.mem_singleton] at h1
          exact hc h1.symm
      simp only [runChars, if_neg hc]
      rw [ih (buf ++ [c]) hb, List.append_assoc, List.singleton_append]

/-- Fragments produced by splitting contain no newline. -/
theorem splitNL_no_newline_mem (l x : List Char) (hx : x ∈ splitNL l) :
    '\n' ∉ x := by
  induction l generalizing x with
  | nil =>
    simp only [splitNL, List.mem_singleton] at hx
    subst hx
    simp
  | cons c rest ih =>
    by_cases hc : c = '\n'
    · subst hc
      rw [splitNL, if_pos rfl] at hx
      rcases List.mem_cons.mp hx with h0 | h1
      · subst h0
        simp
      · exact ih x h1
    · rw [splitNL, if_neg hc] at hx
      obtain ⟨l, ls, hs⟩ := List.exists_cons_of_ne_nil (splitNL_ne_nil rest)
      rw [hs] at hx
      rcases List.mem_cons.mp hx with h0 | hx2
      · subst h0
        intro hm
        rcases List.mem_cons.mp hm with he | hm2
        · exact hc he.symm
        · exact ih l (hs ▸ List.mem_cons_self l ls) hm2
      · exact ih x (hs ▸ List.mem_cons_of_mem l hx2)

/-- Taking `getLastD` of a non-empty list yields an element of it. -/
theorem getLastD_mem {α : Type} (l : List α) (d : α) (h : l ≠ []) :
    l.getLastD d ∈ l := by
  induction l generalizing d with
  | nil => exact absurd rfl h
  | cons a t ih =>
    rw [List.getLastD_cons]
    cases t with
    | nil => simp [List.getLastD]
    | cons b m => exact List.mem_cons_of_mem a (ih a (by simp))

/-- The scanner splits over concatenation of inputs, threading the
carry-over buffer. -/
theorem runChars_append (a b buf : List Char) :
    runChars buf (a ++ b)
      = ((runChars buf a).1 ++ (runChars (runChars buf a).2 b).1,
          (runChars (runChars buf a).2 b).2) := by
  induction a generalizing buf with
  | nil => simp [runChars]
  | cons c rest ih =>
    by_cases hc : c = '\n'
    · subst hc
      have e1 : runChars buf ('\n' :: (rest ++ b))
          = (buf :: (runChars [] (rest ++ b)).1, (runChars [] (rest ++ b)).2) := by
        simp [runChars]
      have e2 : runChars buf ('\n' :: rest)
          = (buf :: (runChars [] rest).1, (runChars [] rest).2) := by
        simp [runChars]
      rw [List.cons_append, e1, ih [], e2]
      simp [List.cons_append]
    · have e1 : runChars buf (c :: (rest ++ b))
          = runChars (buf ++ [c]) (rest ++ b) := by
        simp [runChars, hc]
      have e2 : runChars buf (c :: rest) = runChars (buf ++ [c]) rest := by
        simp [runChars, hc]
      rw [List.cons_append, e1, ih (buf ++ [c]), e2]

/-- The whole read loop over a chunk sequence, started on a newline-free
carry-over buffer, emits exactly the lines of the character-by-character
scan of the concatenated input, and retains its final fragment. -/
theorem feedChunks_eq_runChars (cs : List (List Char)) (buf : List Char)
    (h : '\n' ∉ buf) :
    (feedChunks ⟨buf⟩ cs).1 = (runChars buf cs.flatten).1
    ∧ (feedChunks ⟨buf⟩ cs).2.buffer = (runChars buf cs.flatten).2 := by
  induction cs generalizing buf with
  | nil => exact ⟨rfl, rfl⟩
  | cons c cs ih =>
    have hrc := runChars_eq_splitNL c buf h
    have h1 : (feedChunk ⟨buf⟩ c).1 = (runChars buf c).1 := by
      rw [hrc]
      rfl
    have h2 : (feedChunk ⟨buf⟩ c).2 = ParserState.mk (runChars buf c).2 := by
      rw [hrc]
      rfl
    have hb : '\n' ∉ (runChars buf c).2 := by
      rw [hrc]
      exact splitNL_no_newline_mem _ _
        (getLastD_mem _ _ (splitNL_ne_nil _))
    constructor
    · show (feedChunk ⟨buf⟩ c).1 ++ (feedChunks (feedChunk ⟨buf⟩ c).2 cs).1 = _
      rw [h1, h2, (ih _ hb).1, List.flatten_cons, runChars_append]
    · show (feedChunks (feedChunk ⟨buf⟩ c).2 cs).2.buffer = _
      rw [h2, (ih _ hb).2, List.flatten_cons, runChars_append]

/-- C4: the frame parser is independent of chunk boundaries — for every
split of the text into chunks, the emitted complete lines are exactly
all fragments but the last of the newline split of the whole text (so
each complete line, and hence each parsed event, is delivered exactly
once), the trailing incomplete fragment is retained in the carry-over
buffer rather than emitted, and any two chunkings of the same text
deliver the same line and event sequences. -/
theorem frame_parser_chunking_invariant (cs csp : List (List Char))
    (parse : List Char → Option StreamEvent)
    (h : cs.flatten = csp.flatten) :
    (feedChunks ⟨[]⟩ cs).1 = (splitNL cs.flatten).dropLast
    ∧ (feedChunks ⟨[]⟩ cs).2.buffer = (splitNL cs.flatten).getLastD []
    ∧ (feedChunks ⟨[]⟩ cs).1 = (feedChunks ⟨[]⟩ csp).1
    ∧ eventsOfLines parse (feedChunks ⟨[]⟩ cs).1
      = eventsOfLines parse (feedChunks ⟨[]⟩ csp).1 := by
  have hc := feedChunks_eq_runChars cs [] (by simp)
  have hcp := feedChunks_eq_runChars csp [] (by simp)
  have hr := runChars_eq_splitNL cs.flatten [] (by simp)
  have hrp := runChars_eq_splitNL csp.flatten [] (by simp)
  rw [List.nil_append] at hr hrp
  have e1 : (feedChunks ⟨[]⟩ cs).1 = (splitNL cs.flatten).dropLast := by
    rw [hc.1, hr]
  have e2 : (feedChunks ⟨[]⟩ cs).1 = (feedChunks ⟨[]⟩ csp).1 := by
    rw [hc.1, hcp.1, h]
  exact ⟨e1, by rw [hc.2, hr], e2, by rw [e2]⟩

/-- Witness for `frame_parser_chunking_invariant`: the text
`"data: 1\ndata: 2"` split as `["data: 1\nda", "ta: 2"]` versus
`["data: 1", "\ndata: 2"]` — the second line is cut mid-way in both. -/
theorem frame_parser_chunking_invariant_witness :
    ((["data: 1\nda".toList, "ta: 2".toList] : List (List Char)).flatten
      = (["data: 1".toList, "\ndata: 2".toList] : List (List Char)).flatten)
    ∧ ((feedChunks ⟨[]⟩ ["data: 1\nda".toList, "ta: 2".toList]).1
        = (splitNL (["data: 1\nda".toList, "ta: 2".toList] : List (List Char)).flatten).dropLast
      ∧ (feedChunks ⟨[]⟩ ["data: 1\nda".toList, "ta: 2".toList]).2.buffer
        = (splitNL (["data: 1\nda".toList, "ta: 2".toList] : List (List Char)).flatten).getLastD []
      ∧ (feedChunks ⟨[]⟩ ["data: 1\nda".toList, "ta: 2".toList]).1
        = (feedChunks ⟨[]⟩ ["data: 1".toList, "\ndata: 2".toList]).1
      ∧ eventsOfLines (fun l => if l = ['1'] then some (StreamEvent.complete "" none) else none)
          (feedChunks ⟨[]⟩ ["data: 1\nda".toList, "ta: 2".toList]).1
        = eventsOfLines (fun l => if l = ['1'] then some (StreamEvent.complete "" none) else none)
          (feedChunks ⟨[]⟩ ["data: 1".toList, "\ndata: 2".toList]).1) :=
  ⟨by decide,
    frame_parser_chunking_invariant
      ["data: 1\nda".toList, "ta: 2".toList]
      ["data: 1".toList, "\ndata: 2".toList]
      (fun l => if l = ['1'] then some (StreamEvent.complete "" none) else none)
      (by decide)⟩

/-- C5: a complete line that carries the `"data: "` tag but whose
remainder fails to parse is skipped without affecting any other line —
the extracted event sequence is exactly that of the remaining lines, so
every valid line after the malformed one is still parsed and applied —
and a line without the tag contributes no event. -/
theorem malformed_data_line_skipped (parse : List Char → Option StreamEvent)
    (xs ys : List (List Char)) (bad plain : List Char)
    (hbad : isDataLine bad = true) (hfail : parse (bad.drop 6) = none)
    (hplain : isDataLine plain = false) :
    eventsOfLines parse (xs ++ bad :: ys)
      = eventsOfLines parse xs ++ eventsOfLines parse ys
    ∧ eventsOfLines parse (xs ++ plain :: ys)
      = eventsOfLines parse xs ++ eventsOfLines parse ys
    ∧ applyEvents initialState (eventsOfLines parse (xs ++ bad :: ys))
      = applyEvents initialState
          (eventsOfLines parse xs ++ eventsOfLines parse ys) := by
  have h1 : lineEvent parse bad = none := by
    simp [lineEvent, hbad, hfail]
  have h2 : lineEvent parse plain = none := by
    simp [lineEvent, hplain]
  have e1 : eventsOfLines parse (xs ++ bad :: ys)
      = eventsOfLines parse xs ++ eventsOfLines parse ys := by
    simp [eventsOfLines, List.filterMap_append, List.filterMap_cons, h1]
  have e2 : eventsOfLines parse (xs ++ plain :: ys)
      = eventsOfLines parse xs ++ eventsOfLines parse ys := by
    simp [eventsOfLines, List.filterMap_append, List.filterMap_cons, h2]
  exact ⟨e1, e2, by rw [e1]⟩

/-- Witness for `malformed_data_line_skipped`: the malformed line
`"data: x"` sits between two valid `"data: 1"` lines; both valid lines
still produce their events. -/
theorem malformed_data_line_skipped_witness :
    isDataLine "data: x".toList = true
    ∧ (fun l => if l = ['1'] then some (StreamEvent.complete "ok" none) else none)
        ("data: x".toList.drop 6) = none
    ∧ isDataLine "hello".toList = false
    ∧ (eventsOfLines
          (fun l => if l = ['1'] then some (StreamEvent.complete "ok" none) else none)
          (["data: 1".toList] ++ "data: x".toList :: ["data: 1".toList])
        = eventsOfLines
            (fun l => if l = ['1'] then some (StreamEvent.complete "ok" none) else none)
            ["data: 1".toList]
          ++ eventsOfLines
            (fun l => if l = ['1'] then some (StreamEvent.complete "ok" none) else none)
            ["data: 1".toList]
      ∧ eventsOfLines
          (fun l => if l = ['1'] then some (StreamEvent.complete "ok" none) else none)
          (["data: 1".toList] ++ "hello".toList :: ["data: 1".toList])
        = eventsOfLines
            (fun l => if l = ['1'] then some (StreamEvent.complete "ok" none) else none)
            ["data: 1".toList]
          ++ eventsOfLines
            (fun l => if l = ['1'] then some (StreamEvent.complete "ok" none) else none)
            ["data: 1".toList]
      ∧ applyEvents initialState
          (eventsOfLines
            (fun l => if l = ['1'] then some (StreamEvent.complete "ok" none) else none)
            (["data: 1".toList] ++ "data: x".toList :: ["data: 1".toList]))
        = applyEvents initialState
            (eventsOfLines
              (fun l => if l = ['1'] then some (StreamEvent.complete "ok" none) else none)
              ["data: 1".toList]
            ++ eventsOfLines
              (fun l => if l = ['1'] then some (StreamEvent.complete "ok" none) else none)
              ["data: 1".toList])) :=
  ⟨by decide, by decide, by decide,
    malformed_data_line_skipped
      (fun l => if l = ['1'] then some (StreamEvent.complete "ok" none) else none)
      ["data: 1".toList] ["data: 1".toList]
      "data: x".toList "hello".toList
      (by decide) (by decide) (by decide)⟩

/-- The lexicographic order is total. -/
theorem lexLe_total (a b : List Char) : lexLe a b = true ∨ lexLe b a = true := by
  induction a generalizing b with
  | nil => exact Or.inl rfl
  | cons x xs ih =>
    cases b with
    | nil => exact Or.inr rfl
    | cons y ys =>
      by_cases hxy : x = y
      · subst hxy
        rcases ih ys with h | h
        · exact Or.inl (by simp [lexLe, h])
        · exact Or.inr (by simp [lexLe, h])
      · rcases lt_or_gt_of_ne hxy with hlt | hgt
        · exact Or.inl (by simp [lexLe, hxy, hlt])
        · exact Or.inr (by simp [lexLe, Ne.symm hxy, hgt])

/-- The lexicographic order is transitive. -/
theorem lexLe_trans (a b c : List Char) (h1 : lexLe a b = true)
    (h2 : lexLe b c = true) : lexLe a c = true := by
  induction a generalizing b c with
  | nil => rfl
  | cons x xs ih =>
    cases b with
    | nil => simp [lexLe] at h1
    | cons y ys =>
      cases c with
      | nil => simp [lexLe] at h2
      | cons z zs =>
        by_cases hxy : x = y
        · subst hxy
          by_cases hxz : x = z
          · subst hxz
            simp only [lexLe, if_pos rfl] at h1 h2 ⊢
            exact ih ys zs h1 h2
          · simp only [lexLe, if_neg hxz] at h2 ⊢
            exact h2
        · have hlt : x < y := by simpa [lexLe, hxy] using h1
          by_cases hyz : y = z
          · subst hyz
            simp [lexLe, hxy, hlt]
          · have hlt2 : y < z := by simpa [lexLe, hyz] using h2
            have hxz : x < z := lt_trans hlt hlt2
            simp [lexLe, ne_of_lt hxz, hxz]

/-- String comparison is transitive. -/
theorem strLe_trans (a b c : String) (h1 : strLe a b = true)
    (h2 : strLe b c = true) : strLe a c = true :=
  lexLe_trans _ _ _ h1 h2

/-- String comparison is total. -/
theorem strLe_total (a b : String) : strLe a b = true ∨ strLe b a = true :=
  lexLe_total _ _

/-- Membership through insertion. -/
theorem mem_insertSorted (x y : String) (l : List String) :
    y ∈ insertSorted x l ↔ y = x ∨ y ∈ l := by
  induction l with
  | nil => simp [insertSorted]
  | cons a l ih =>
    simp only [insertSorted]
    by_cases h : strLe x a = true
    · rw [if_pos h]
      simp [List.mem_cons]
    · rw [if_neg h]
      simp only [List.mem_cons, ih]
      tauto

/-- Insertion permutes the cons. -/
theorem insertSorted_perm (x : String) (l : List String) :
    (insertSorted x l).Perm (x :: l) := by
  induction l with
  | nil => exact List.Perm.refl _
  | cons a l ih =>
    simp only [insertSorted]
    by_cases h : strLe x a = true
    · rw [if_pos h]
    · rw [if_neg h]
      exact (List.Perm.cons a ih).trans (List.Perm.swap x a l)

/-- The insertion sort permutes its input. -/
theorem sortStrings_perm (l : List String) : (sortStrings l).Perm l := by
  induction l with
  | nil => exact List.Perm.refl _
  | cons x xs ih =>
    exact (insertSorted_perm x (sortStrings xs)).trans (List.Perm.cons x ih)

/-- Insertion preserves sortedness. -/
theorem insertSorted_sorted (x : String) (l : List String)
    (h : l.Pairwise (fun a b => strLe a b = true)) :
    (insertSorted x l).Pairwise (fun a b => strLe a b = true) := by
  induction l with
  | nil => simp [insertSorted]
  | cons a l ih =>
    rcases List.pairwise_cons.mp h with ⟨ha, hl⟩
    simp only [insertSorted]
    by_cases hx : strLe x a = true
    · rw [if_pos hx]
      refine List.pairwise_cons.mpr ⟨?_, h⟩
      intro y hy
      rcases List.mem_cons.mp hy with rfl | hy2
      · exact hx
      · exact strLe_trans _ _ _ hx (ha y hy2)
    · rw [if_neg hx]
      have hax : strLe a x = true := (strLe_total x a).resolve_left hx
      refine List.pairwise_cons.mpr ⟨?_, ih hl⟩
      intro y hy
      rcases (mem_insertSorted x y l).mp hy with rfl | hy2
      · exact hax
      · exact ha y hy2

/-- The insertion sort sorts. -/
theorem sortStrings_sorted (l : List String) :
    (sortStrings l).Pairwise (fun a b => strLe a b = true) := by
  induction l with
  | nil => simp [sortStrings]
  | cons x xs ih => exact insertSorted_sorted x _ ih

/-- Membership through set-based dedup. -/
theorem mem_dedupStringsAux (l : List String) (seen : List String) (x : String) :
    x ∈ dedupStringsAux seen l ↔ x ∈ l ∧ x ∉ seen := by
  induction l generalizing seen with
  | nil => simp [dedupStringsAux]
  | cons a l ih =>
    simp only [dedupStringsAux]
    by_cases ha : a ∈ seen
    · rw [if_pos ha, ih]
      constructor
      · rintro ⟨h1, h2⟩
        exact ⟨List.mem_cons_of_mem _ h1, h2⟩
      · rintro ⟨h1, h2⟩
        rcases List.mem_cons.mp h1 with rfl | h3
        · exact absurd ha h2
        · exact ⟨h3, h2⟩
    · rw [if_neg ha]
      constructor
      · intro h1
        rcases List.mem_cons.mp h1 with rfl | h2
        · exact ⟨List.mem_cons_self _ _, ha⟩
        · rcases (ih _).mp h2 with ⟨h3, h4⟩
          exact ⟨List.mem_cons_of_mem _ h3, fun hs => h4 (List.mem_cons_of_mem _ hs)⟩
      · rintro ⟨h1, h2⟩
        rcases List.mem_cons.mp h1 with rfl | h3
        · exact List.mem_cons_self _ _
        · by_cases hxa : x = a
          · subst hxa
            exact List.mem_cons_self _ _
          · exact List.mem_cons_of_mem _
              ((ih _).mpr ⟨h3, fun hs => (List.mem_cons.mp hs).elim hxa h2⟩)

/-- Set-based dedup produces pairwise distinct strings. -/
theorem dedupStringsAux_nodup (l seen : List String) :
    (dedupStringsAux seen l).Nodup := by
  induction l generalizing seen with
  | nil => exact List.nodup_nil
  | cons a l ih =>
    simp only [dedupStringsAux]
    by_cases ha : a ∈ seen
    · rw [if_pos ha]
      exact ih seen
    · rw [if_neg ha]
      refine List.nodup_cons.mpr ⟨?_, ih _⟩
      intro hmem
      exact ((mem_dedupStringsAux _ _ _).mp hmem).2 (List.mem_cons_self _ _)

/-- A connection kept by the key dedup has a key outside the seen set. -/
theorem dedupConnsAux_key_notin (l : List EcosystemConnection) (seen : List String) :
    ∀ c ∈ dedupConnsAux seen l, connKey c ∉ seen := by
  induction l generalizing seen with
  | nil =>
    intro c hc
    simp [dedupConnsAux] at hc
  | cons d l ih =>
    intro c hc
    simp only [dedupConnsAux] at hc
    by_cases hd : connKey d ∈ seen
    · rw [if_pos hd] at hc
      exact ih seen c hc
    · rw [if_neg hd] at hc
      rcases List.mem_cons.mp hc with rfl | hc2
      · exact hd
      · exact fun hs => ih _ c hc2 (List.mem_cons_of_mem _ hs)

/-- The key dedup yields pairwise distinct keys. -/
theorem dedupConnsAux_keys_nodup (l : List EcosystemConnection) (seen : List String) :
    ((dedupConnsAux seen l).map connKey).Nodup := by
  induction l generalizing seen with
  | nil => exact List.nodup_nil
  | cons d l ih =>
    simp only [dedupConnsAux]
    by_cases hd : connKey d ∈ seen
    · rw [if_pos hd]
      exact ih seen
    · rw [if_neg hd, List.map_cons]
      refine List.nodup_cons.mpr ⟨?_, ih _⟩
      intro hmem
      rcases List.mem_map.mp hmem with ⟨c, hc, he⟩
      exact dedupConnsAux_key_notin _ _ c hc (he ▸ List.mem_cons_self _ _)

/-- Every input key outside the seen set survives the key dedup. -/
theorem dedupConnsAux_coverage (l : List EcosystemConnection) (seen : List String) :
    ∀ c ∈ l, connKey c ∉ seen →
      connKey c ∈ (dedupConnsAux seen l).map connKey := by
  induction l generalizing seen with
  | nil =>
    intro c hc
    simp at hc
  | cons d l ih =>
    intro c hc hcs
    simp only [dedupConnsAux]
    by_cases hd : connKey d ∈ seen
    · rw [if_pos hd]
      rcases List.mem_cons.mp hc with rfl | hc2
      · exact absurd hd hcs
      · exact ih seen c hc2 hcs
    · rw [if_neg hd, List.map_cons]
      rcases List.mem_cons.mp hc with rfl | hc2
      · exact List.mem_cons_self _ _
      · by_cases hk : connKey c = connKey d
        · rw [hk]
          exact List.mem_cons_self _ _
        · refine List.mem_cons_of_mem _ (ih _ c hc2 ?_)
          intro hs
          rcases List.mem_cons.mp hs with he | hs2
          · exact hk he
          · exact hcs hs2

/-- First occurrence wins: a connection kept by the key dedup is the
first connection of the input list bearing its key. -/
theorem dedupConnsAux_find (l : List EcosystemConnection) (seen : List String) :
    ∀ c ∈ dedupConnsAux seen l,
      l.find? (fun d => connKey d == connKey c) = some c := by
  induction l generalizing seen with
  | nil =>
    intro c hc
    simp [dedupConnsAux] at hc
  | cons d l ih =>
    intro c hc
    simp only [dedupConnsAux] at hc
    by_cases hd : connKey d ∈ seen
    · rw [if_pos hd] at hc
      have hne : connKey d ≠ connKey c :=
        fun he => dedupConnsAux_key_notin l seen c hc (he ▸ hd)
      rw [List.find?_cons_of_neg _ (by simpa using hne)]
      exact ih seen c hc
    · rw [if_neg hd] at hc
      rcases List.mem_cons.mp hc with rfl | hc2
      · rw [List.find?_cons_of_pos _ (by simp)]
      · have hcc := dedupConnsAux_key_notin l (connKey d :: seen) c hc2
        have hne : connKey d ≠ connKey c :=
          fun he => hcc (he ▸ List.mem_cons_self _ _)
        rw [List.find?_cons_of_neg _ (by simpa using hne)]
        exact ih _ c hc2

/-- C6 counterexample: the two connection records (`"a-b"`, `"c"`) and
(`"a"`, `"b-c"`) have distinct (source, target) pairs, so dedup by the
pair keeps both; but their string keys coincide (`"a-b-c"`), so the
builder drops the second and emits a single edge — the edge list is not
the pair-deduplicated restriction the claim describes. -/
theorem bipartite_edge_key_collision_cex :
    (bipartiteData cexFlows cexConns cexSvcs).map GraphView.connections
      = some [{ sourceId := "a-b", targetId := "c" }]
    ∧ (dedupConnsByPair (cexConns.filter
          (fun c => decide (c.bmf_name ∈ (["a", "a-b"] : List String))))).map
        (fun c => ({ sourceId := c.bmf_name, targetId := c.ecosystem_service } : BipartiteConnection))
      = [{ sourceId := "a-b", targetId := "c" }, { sourceId := "a", targetId := "b-c" }]
    ∧ builderValidNames cexFlows cexConns = ["a", "a-b"]
    ∧ ([{ sourceId := "a-b", targetId := "c" }] : List BipartiteConnection)
      ≠ [{ sourceId := "a-b", targetId := "c" }, { sourceId := "a", targetId := "b-c" }] :=
  ⟨by decide, by decide, by decide, by decide⟩

/-- C6 as amended: whenever the builder returns a view, the left ids
are the distinct `bmf_name`s of the connections intersected with the
outflow-capable flow names, lexicographically sorted and pairwise
distinct; the right ids are the service list sorted; and the edges are
the connections restricted to the left set, deduplicated by the
concatenated string key `source ++ "-" ++ target` with the first
occurrence winning (so two distinct pairs whose concatenations coincide
are also collapsed, as the counterexample shows). -/
theorem bipartite_view_builder_characterization (flows : List MatchedBMF)
    (conns : List EcosystemConnection) (svcs : List String) (g : GraphView)
    (n : String) (h : bipartiteData flows conns svcs = some g) :
    (g.leftItems.map BipartiteItem.id).Pairwise (fun a b => strLe a b = true)
    ∧ (g.leftItems.map BipartiteItem.id).Nodup
    ∧ (n ∈ g.leftItems.map BipartiteItem.id ↔
        n ∈ conns.map EcosystemConnection.bmf_name
        ∧ n ∈ (flows.filter isOutflowCapable).map MatchedBMF.bmf_name)
    ∧ (g.rightItems.map BipartiteItem.id).Pairwise (fun a b => strLe a b = true)
    ∧ (g.rightItems.map BipartiteItem.id).Perm svcs
    ∧ g.connections = builderEdges flows conns
    ∧ (g.connections.map edgeKey).Nodup
    ∧ (∀ c ∈ builderRestricted flows conns,
        connKey c ∈ g.connections.map edgeKey)
    ∧ (∀ e ∈ g.connections, ∃ c,
        (builderRestricted flows conns).find? (fun d => connKey d == edgeKey e) = some c
        ∧ c.bmf_name = e.sourceId ∧ c.ecosystem_service = e.targetId) := by
  by_cases hc : conns.length = 0
  · rw [bipartiteData, if_pos hc] at h
    exact absurd h (by simp)
  · rw [bipartiteData, if_neg hc] at h
    have hg := Option.some.inj h
    have hL : g.leftItems = builderLeftItems flows conns := by
      rw [← hg]
    have hR : g.rightItems = (sortStrings svcs).map
        (fun m => { id := m, label := m : BipartiteItem }) := by
      rw [← hg]
    have hC : g.connections = builderEdges flows conns := by
      rw [← hg]
    have hids : (builderLeftItems flows conns).map BipartiteItem.id
        = builderLeftIds flows conns := by
      rw [builderLeftItems, List.map_map]
      exact List.map_id' _
    have hrids : ((sortStrings svcs).map
          (fun m => { id := m, label := m : BipartiteItem })).map BipartiteItem.id
        = sortStrings svcs := by
      rw [List.map_map]
      exact List.map_id' _
    have hkeys : (builderEdges flows conns).map edgeKey
        = (dedupConns (builderRestricted flows conns)).map connKey := by
      rw [builderEdges, List.map_map]
      rfl
    rw [hL, hR, hC, hids, hrids]
    refine ⟨sortStrings_sorted _, ?_, ?_, sortStrings_sorted _, sortStrings_perm _,
      rfl, ?_, ?_, ?_⟩
    · refine ((sortStrings_perm _).nodup_iff).mpr ?_
      exact List.Nodup.filter _ (dedupStringsAux_nodup _ _)
    · rw [builderLeftIds, (sortStrings_perm _).mem_iff, List.mem_filter]
      rw [builderConnBmfNames]
      show n ∈ dedupStringsAux [] _ ∧ _ ↔ _
      rw [mem_dedupStringsAux]
      simp [builderOutflowNames]
    · rw [hkeys]
      exact dedupConnsAux_keys_nodup _ _
    · intro c hcr
      rw [hkeys]
      exact dedupConnsAux_coverage _ [] c hcr (by simp)
    · intro e he
      rw [builderEdges] at he
      rcases List.mem_map.mp he with ⟨c0, hc0, rfl⟩
      refine ⟨c0, ?_, rfl, rfl⟩
      exact dedupConnsAux_find _ [] c0 hc0

/-- Witness for `bipartite_view_builder_characterization` at a one-flow,
one-connection, one-service input. -/
theorem bipartite_view_builder_characterization_witness :
    bipartiteData [wOutflow] [wConn] ["habitat"] = some wView
    ∧ ((wView.leftItems.map BipartiteItem.id).Pairwise (fun a b => strLe a b = true)
      ∧ (wView.leftItems.map BipartiteItem.id).Nodup
      ∧ ("s" ∈ wView.leftItems.map BipartiteItem.id ↔
          "s" ∈ ([wConn] : List EcosystemConnection).map EcosystemConnection.bmf_name
          ∧ "s" ∈ (([wOutflow] : List MatchedBMF).filter isOutflowCapable).map
              MatchedBMF.bmf_name)
      ∧ (wView.rightItems.map BipartiteItem.id).Pairwise (fun a b => strLe a b = true)
      ∧ (wView.rightItems.map BipartiteItem.id).Perm ["habitat"]
      ∧ wView.connections = builderEdges [wOutflow] [wConn]
      ∧ (wView.connections.map edgeKey).Nodup
      ∧ (∀ c ∈ builderRestricted [wOutflow] [wConn],
          connKey c ∈ wView.connections.map edgeKey)
      ∧ (∀ e ∈ wView.connections, ∃ c,
          (builderRestricted [wOutflow] [wConn]).find?
              (fun d => connKey d == edgeKey e) = some c
          ∧ c.bmf_name = e.sourceId ∧ c.ecosystem_service = e.targetId)) :=
  ⟨by decide,
    bipartite_view_builder_characterization [wOutflow] [wConn] ["habitat"] wView
      "s" (by decide)⟩

/-- The `Set.has` of a neighbor map entry is membership in the neighbor
list. -/
theorem contains_iff_mem (l : List String) (x : String) :
    l.contains x = true ↔ x ∈ l :=
  List.elem_iff

/-- Reduction of the edge highlight under a left hover with a non-empty
hovered id. -/
theorem getHighlightState_left_hover (conns : List BipartiteConnection)
    (L : String) (hL : L ≠ "") (sId tId : String) :
    getHighlightState conns (some L) none sId tId
      = if sId = L ∧ tId ∈ sourceNeighbors conns L then HighlightState.highlighted
        else HighlightState.dimmed := by
  by_cases h1 : sId = L
  · by_cases h2 : tId ∈ sourceNeighbors conns L
    · simp [getHighlightState, jsTruthy, hL, h1, h2, contains_iff_mem]
    · simp [getHighlightState, jsTruthy, hL, h1, h2, contains_iff_mem]
  · simp [getHighlightState, jsTruthy, hL, h1]

/-- Reduction of the edge highlight under a right hover with a
non-empty hovered id. -/
theorem getHighlightState_right_hover (conns : List BipartiteConnection)
    (R : String) (hR : R ≠ "") (sId tId : String) :
    getHighlightState conns none (some R) sId tId
      = if tId = R ∧ sId ∈ targetNeighbors conns R then HighlightState.highlighted
        else HighlightState.dimmed := by
  by_cases h1 : tId = R
  · by_cases h2 : sId ∈ targetNeighbors conns R
    · simp [getHighlightState, jsTruthy, hR, h1, h2, contains_iff_mem]
    · simp [getHighlightState, jsTruthy, hR, h1, h2, contains_iff_mem]
  · simp [getHighlightState, jsTruthy, hR, h1]

/-- Reduction of a left item's rendered state under a left hover. -/
theorem leftItemState_left_hover (conns : List BipartiteConnection)
    (L : String) (hL : L ≠ "") (item : String) :
    leftItemState conns (some L) none item
      = if item = L then HighlightState.highlighted else HighlightState.dimmed := by
  by_cases h1 : item = L
  · simp [leftItemState, isLeftItemHighlighted, jsTruthy, hL, h1]
  · have h1s : ¬ L = item := fun he => h1 he.symm
    simp [leftItemState, isLeftItemHighlighted, jsTruthy, hL, h1, h1s]

/-- Reduction of a right item's rendered state under a left hover. -/
theorem rightItemState_left_hover (conns : List BipartiteConnection)
    (L : String) (hL : L ≠ "") (item : String) :
    rightItemState conns (some L) none item
      = if item ∈ sourceNeighbors conns L then HighlightState.highlighted
        else HighlightState.dimmed := by
  by_cases h2 : item ∈ sourceNeighbors conns L
  · simp [rightItemState, isRightItemHighlighted, jsTruthy, hL, h2, contains_iff_mem]
  · simp [rightItemState, isRightItemHighlighted, jsTruthy, hL, h2, contains_iff_mem]

/-- Reduction of a right item's rendered state under a right hover. -/
theorem rightItemState_right_hover (conns : List BipartiteConnection)
    (R : String) (hR : R ≠ "") (item : String) :
    rightItemState conns none (some R) item
      = if item = R then HighlightState.highlighted else HighlightState.dimmed := by
  by_cases h1 : item = R
  · simp [rightItemState, isRightItemHighlighted, jsTruthy, hR, h1]
  · have h1s : ¬ R = item := fun he => h1 he.symm
    simp [rightItemState, isRightItemHighlighted, jsTruthy, hR, h1, h1s]

/-- Reduction of a left item's rendered state under a right hover. -/
theorem leftItemState_right_hover (conns : List BipartiteConnection)
    (R : String) (hR : R ≠ "") (item : String) :
    leftItemState conns none (some R) item
      = if item ∈ targetNeighbors conns R then HighlightState.highlighted
        else HighlightState.dimmed := by
  by_cases h2 : item ∈ targetNeighbors conns R
  · simp [leftItemState, isLeftItemHighlighted, jsTruthy, hR, h2, contains_iff_mem]
  · simp [leftItemState, isLeftItemHighlighted, jsTruthy, hR, h2, contains_iff_mem]

/-- A highlighted-or-dimmed decision equals `highlighted` exactly when
its condition holds. -/
theorem ite_eq_highlighted_iff (c : Prop) [Decidable c] :
    (if c then HighlightState.highlighted else HighlightState.dimmed)
      = HighlightState.highlighted ↔ c := by
  by_cases h : c <;> simp [h]

/-- A highlighted-or-dimmed decision equals `dimmed` exactly when its
condition fails. -/
theorem ite_eq_dimmed_iff (c : Prop) [Decidable c] :
    (if c then HighlightState.highlighted else HighlightState.dimmed)
      = HighlightState.dimmed ↔ ¬ c := by
  by_cases h : c <;> simp [h]

/-- C7 counterexample: the hovered left id `""` is truthy-falsy in
JavaScript, so although the edge (`""`, `"t"`) has source equal to the
hovered id and target in its neighbor set — which the claim says must
be `highlighted` — the highlight decision falls through every branch
and returns `normal`. -/
theorem hover_empty_id_cex :
    ("t" ∈ sourceNeighbors [{ sourceId := "", targetId := "t" }] "")
    ∧ getHighlightState [{ sourceId := "", targetId := "t" }] (some "") none "" "t"
      = HighlightState.normal
    ∧ HighlightState.normal ≠ HighlightState.highlighted :=
  ⟨by decide, by decide, by decide⟩

/-- C7 as amended: for every non-empty hovered left id `L`, exactly the
edges with source `L` and target in `L`'s neighbor set are highlighted
and every other edge is dimmed; symmetrically for a non-empty hovered
right id; with no hover active, every edge is normal. An item is
highlighted exactly when it is the hovered item itself or a neighbor of
the hovered item on the opposite side, every other item is dimmed while
a hover is active, and all items are normal with no hover. (Hovering
the empty-string id is excluded: JavaScript truthiness makes it behave
as no hover for the branch logic — see the counterexample.) -/
theorem hover_highlight_classification (conns : List BipartiteConnection)
    (L R sId tId item : String) (hL : L ≠ "") (hR : R ≠ "") :
    (getHighlightState conns (some L) none sId tId = HighlightState.highlighted ↔
      sId = L ∧ tId ∈ sourceNeighbors conns L)
    ∧ (getHighlightState conns (some L) none sId tId = HighlightState.dimmed ↔
      ¬(sId = L ∧ tId ∈ sourceNeighbors conns L))
    ∧ (getHighlightState conns none (some R) sId tId = HighlightState.highlighted ↔
      tId = R ∧ sId ∈ targetNeighbors conns R)
    ∧ (getHighlightState conns none (some R) sId tId = HighlightState.dimmed ↔
      ¬(tId = R ∧ sId ∈ targetNeighbors conns R))
    ∧ getHighlightState conns none none sId tId = HighlightState.normal
    ∧ (leftItemState conns (some L) none item = HighlightState.highlighted ↔ item = L)
    ∧ (leftItemState conns (some L) none item = HighlightState.dimmed ↔ ¬ item = L)
    ∧ (rightItemState conns (some L) none item = HighlightState.highlighted ↔
        item ∈ sourceNeighbors conns L)
    ∧ (rightItemState conns (some L) none item = HighlightState.dimmed ↔
        item ∉ sourceNeighbors conns L)
    ∧ (rightItemState conns none (some R) item = HighlightState.highlighted ↔ item = R)
    ∧ (rightItemState conns none (some R) item = HighlightState.dimmed ↔ ¬ item = R)
    ∧ (leftItemState conns none (some R) item = HighlightState.highlighted ↔
        item ∈ targetNeighbors conns R)
    ∧ (leftItemState conns none (some R) item = HighlightState.dimmed ↔
        item ∉ targetNeighbors conns R)
    ∧ leftItemState conns none none item = HighlightState.normal
    ∧ rightItemState conns none none item = HighlightState.normal := by
  refine ⟨?_, ?_, ?_, ?_, rfl, ?_, ?_, ?_, ?_, ?_, ?_, ?_, ?_, rfl, rfl⟩
  · rw [getHighlightState_left_hover conns L hL sId tId]
    exact ite_eq_highlighted_iff _
  · rw [getHighlightState_left_hover conns L hL sId tId]
    exact ite_eq_dimmed_iff _
  · rw [getHighlightState_right_hover conns R hR sId tId]
    exact ite_eq_highlighted_iff _
  · rw [getHighlightState_right_hover conns R hR sId tId]
    exact ite_eq_dimmed_iff _
  · rw [leftItemState_left_hover conns L hL item]
    exact ite_eq_highlighted_iff _
  · rw [leftItemState_left_hover conns L hL item]
    exact ite_eq_dimmed_iff _
  · rw [rightItemState_left_hover conns L hL item]
    exact ite_eq_highlighted_iff _
  · rw [rightItemState_left_hover conns L hL item]
    exact ite_eq_dimmed_iff _
  · rw [rightItemState_right_hover conns R hR item]
    exact ite_eq_highlighted_iff _
  · rw [rightItemState_right_hover conns R hR item]
    exact ite_eq_dimmed_iff _
  · rw [leftItemState_right_hover conns R hR item]
    exact ite_eq_highlighted_iff _
  · rw [leftItemState_right_hover conns R hR item]
    exact ite_eq_dimmed_iff _

/-- Witness for `hover_highlight_classification` on the one-edge graph
`"l" → "r"`, hovering `"l"` on the left and `"r"` on the right. -/
theorem hover_highlight_classification_witness :
    (("l" : String) ≠ "" ∧ ("r" : String) ≠ "")
    ∧ ((getHighlightState [{ sourceId := "l", targetId := "r" }] (some "l") none "l" "r"
          = HighlightState.highlighted ↔
        "l" = "l" ∧ "r" ∈ sourceNeighbors [{ sourceId := "l", targetId := "r" }] "l")
      ∧ (getHighlightState [{ sourceId := "l", targetId := "r" }] (some "l") none "l" "r"
          = HighlightState.dimmed ↔
        ¬("l" = "l" ∧ "r" ∈ sourceNeighbors [{ sourceId := "l", targetId := "r" }] "l"))
      ∧ (getHighlightState [{ sourceId := "l", targetId := "r" }] none (some "r") "l" "r"
          = HighlightState.highlighted ↔
        "r" = "r" ∧ "l" ∈ targetNeighbors [{ sourceId := "l", targetId := "r" }] "r")
      ∧ (getHighlightState [{ sourceId := "l", targetId := "r" }] none (some "r") "l" "r"
          = HighlightState.dimmed ↔
        ¬("r" = "r" ∧ "l" ∈ targetNeighbors [{ sourceId := "l", targetId := "r" }] "r"))
      ∧ getHighlightState [{ sourceId := "l", targetId := "r" }] none none "l" "r"
          = HighlightState.normal
      ∧ (leftItemState [{ sourceId := "l", targetId := "r" }] (some "l") none "r"
          = HighlightState.highlighted ↔ ("r" : String) = "l")
      ∧ (leftItemState [{ sourceId := "l", targetId := "r" }] (some "l") none "r"
          = HighlightState.dimmed ↔ ¬ ("r" : String) = "l")
      ∧ (rightItemState [{ sourceId := "l", targetId := "r" }] (some "l") none "r"
          = HighlightState.highlighted ↔
        "r" ∈ sourceNeighbors [{ sourceId := "l", targetId := "r" }] "l")
      ∧ (rightItemState [{ sourceId := "l", targetId := "r" }] (some "l") none "r"
          = HighlightState.dimmed ↔
        "r" ∉ sourceNeighbors [{ sourceId := "l", targetId := "r" }] "l")
      ∧ (rightItemState [{ sourceId := "l", targetId := "r" }] none (some "r") "r"
          = HighlightState.highlighted ↔ ("r" : String) = "r")
      ∧ (rightItemState [{ sourceId := "l", targetId := "r" }] none (some "r") "r"
          = HighlightState.dimmed ↔ ¬ ("r" : String) = "r")
      ∧ (leftItemState [{ sourceId := "l", targetId := "r" }] none (some "r") "r"
          = HighlightState.highlighted ↔
        "r" ∈ targetNeighbors [{ sourceId := "l", targetId := "r" }] "r")
      ∧ (leftItemState [{ sourceId := "l", targetId := "r" }] none (some "r") "r"
          = HighlightState.dimmed ↔
        "r" ∉ targetNeighbors [{ sourceId := "l", targetId := "r" }] "r")
      ∧ leftItemState [{ sourceId := "l", targetId := "r" }] none none "r"
          = HighlightState.normal
      ∧ rightItemState [{ sourceId := "l", targetId := "r" }] none none "r"
          = HighlightState.normal) :=
  ⟨⟨by decide, by decide⟩,
    hover_highlight_classification [{ sourceId := "l", targetId := "r" }]
      "l" "r" "l" "r" "r" (by decide) (by decide)⟩
